import Mathlib

/-!
Verification development for `serper_agent_scheduler.py`, a two-phase
data-collection pipeline (calendar search, then broadcast search) over a
roster of football teams.

The embedding models:
  * JSON values and a parser mirroring Python's `json.loads`;
  * `extract_json_from_response` (free-text JSON recovery, lines 117-167);
  * `search_serper_api` (retrieval client, lines 20-51);
  * `find_next_matches` (phase 1, lines 191-367), `find_where_to_watch`
    (phase 2, lines 372-645) and `fetch_and_process_football_matches`
    (lines 650-667).

External collaborators (the Serper search provider, the scrape service and
the extraction agent) are modelled as oracle functions supplied per run, as
the specification treats them: opaque services observed only at their call
boundary.  Scrape enrichment only alters the prompt string handed to the
opaque agent oracle, so it is absorbed into that oracle.  Thread-pool
completion order is modelled by an explicit processing-order parameter that
theorems constrain to be a permutation of the submitted items.
-/

set_option maxHeartbeats 1000000

namespace QualCanal

/-- JSON values as produced by `json.loads`.  Numeric literals keep their
source lexeme (the distinction between int and float values is irrelevant
to every property considered here); objects keep Python-dict semantics:
duplicate keys are collapsed at parse time, last value wins, first
position wins. -/
inductive Json where
  | null : Json
  | bool (b : Bool) : Json
  | num (lit : String) : Json
  | str (s : String) : Json
  | arr (elems : List Json) : Json
  | obj (fields : List (String × Json)) : Json
deriving Repr

namespace Json

/-- Python truthiness of a numeric literal: falsy iff its value is zero,
i.e. no nonzero digit occurs in the mantissa (sign and exponent ignored). -/
def numTruthy (lit : String) : Bool :=
  let mantissa := (lit.toList.takeWhile fun c => c ≠ 'e' ∧ c ≠ 'E')
  mantissa.any fun c => '1' ≤ c ∧ c ≤ '9'

/-- Python truthiness of a JSON value (`if parsed_json:` checks). -/
def pyTruthy : Json → Bool
  | .null => false
  | .bool b => b
  | .num lit => numTruthy lit
  | .str s => s ≠ ""
  | .arr es => ¬ es.isEmpty
  | .obj fs => ¬ fs.isEmpty

/-- `isinstance(v, dict)`. -/
def isDict : Json → Bool
  | .obj _ => true
  | _ => false

/-- `key in d` for a parsed object (false on non-objects; callers guard
with `isDict` first, as the source does). -/
def hasKey (j : Json) (k : String) : Bool :=
  match j with
  | .obj fs => fs.any fun f => f.1 = k
  | _ => false

/-- `d.get(key)`: `some v` when present, `none` when absent (Python
`None`).  Fields are duplicate-free by construction (parser collapses). -/
def get (j : Json) (k : String) : Option Json :=
  match j with
  | .obj fs => (fs.find? fun f => f.1 = k).map Prod.snd
  | _ => none

end Json

/-- Insert-or-assign with Python-dict semantics: an existing key keeps its
position and receives the new value; a new key is appended. -/
def upsert {α : Type} (k : String) (v : α) :
    List (String × α) → List (String × α)
  | [] => [(k, v)]
  | (k', v') :: rest =>
      if k' = k then (k, v) :: rest else (k', v') :: upsert k v rest

/-- First-match association-list lookup (`d.get(k)` on a dict built with
`upsert`, whose keys are duplicate-free). -/
def alget {α : Type} (k : String) : List (String × α) → Option α
  | [] => none
  | (k', v) :: rest => if k' = k then some v else alget k rest

/-- `k in d`. -/
def alHasKey {α : Type} (k : String) (l : List (String × α)) : Bool :=
  l.any fun p => p.1 = k

/-- `d[k].append`-style update: rewrite the value at `k` in place (no-op
when the key is absent; callers that reach an absent key are modelled as
crashing before this is used). -/
def alUpdate {α : Type} (k : String) (f : α → α) :
    List (String × α) → List (String × α)
  | [] => []
  | (k', v) :: rest =>
      if k' = k then (k', f v) :: rest else (k', v) :: alUpdate k f rest

/-! ### A model of Python's `json.loads`

Whitespace, literals (`true`/`false`/`null` plus the Python-accepted
`NaN`/`Infinity`/`-Infinity`), strings with escapes, numbers, arrays and
objects.  Fuel-indexed recursion; `loads` supplies enough fuel for any
input.  Lone-surrogate `\uXXXX` escapes are decoded to the replacement of
`Char.ofNat` — no property below depends on surrogate handling. -/

def isJsonWs (c : Char) : Bool :=
  c = ' ' ∨ c = '\t' ∨ c = '\n' ∨ c = '\r'

def skipWs : List Char → List Char
  | [] => []
  | c :: cs => if isJsonWs c then skipWs cs else c :: cs

def isDigit (c : Char) : Bool := '0' ≤ c ∧ c ≤ '9'

def isHexDigit (c : Char) : Bool :=
  isDigit c ∨ ('a' ≤ c ∧ c ≤ 'f') ∨ ('A' ≤ c ∧ c ≤ 'F')

def hexVal (c : Char) : Nat :=
  if isDigit c then c.toNat - '0'.toNat
  else if 'a' ≤ c ∧ c ≤ 'f' then c.toNat - 'a'.toNat + 10
  else c.toNat - 'A'.toNat + 10

/-- `\uXXXX` payload: exactly four hex digits. -/
def parseHex4 : List Char → Option (Nat × List Char)
  | a :: b :: c :: d :: rest =>
      if isHexDigit a ∧ isHexDigit b ∧ isHexDigit c ∧ isHexDigit d then
        some (((hexVal a * 16 + hexVal b) * 16 + hexVal c) * 16 + hexVal d, rest)
      else none
  | _ => none

/-- Body of a JSON string after the opening quote.  Rejects unescaped
control characters (strict mode) and unknown escapes. -/
def parseStringBody : Nat → List Char → Option (String × List Char)
  | 0, _ => none
  | _, [] => none
  | Nat.succ fuel, c :: cs =>
      if c = '"' then some ("", cs)
      else if c = '\\' then
        match cs with
        | [] => none
        | e :: cs' =>
            let cont (ch : Char) (rest : List Char) :
                Option (String × List Char) :=
              (parseStringBody fuel rest).map fun r =>
                (String.singleton ch ++ r.1, r.2)
            if e = '"' then cont '"' cs'
            else if e = '\\' then cont '\\' cs'
            else if e = '/' then cont '/' cs'
            else if e = 'b' then cont (Char.ofNat 8) cs'
            else if e = 'f' then cont (Char.ofNat 12) cs'
            else if e = 'n' then cont '\n' cs'
            else if e = 'r' then cont '\r' cs'
            else if e = 't' then cont '\t' cs'
            else if e = 'u' then
              match parseHex4 cs' with
              | some (n, rest) => cont (Char.ofNat n) rest
              | none => none
            else none
      else if c.toNat < 32 then none
      else (parseStringBody fuel cs).map fun r =>
        (String.singleton c ++ r.1, r.2)

/-- One or more decimal digits. -/
def parseDigits : List Char → Option (List Char × List Char)
  | cs =>
      let ds := cs.takeWhile isDigit
      if ds = [] then none else some (ds, cs.drop ds.length)

/-- JSON number grammar: `-? (0 | [1-9][0-9]*) (.[0-9]+)? ([eE][+-]?[0-9]+)?`,
returning the lexeme. -/
def parseNumber (cs : List Char) : Option (String × List Char) :=
  let (sign, cs₁) :=
    match cs with
    | '-' :: rest => (['-'], rest)
    | _ => ([], cs)
  match cs₁ with
  | [] => none
  | c :: _ =>
      if ¬ isDigit c then none
      else
        let intPart :=
          if c = '0' then ['0']
          else cs₁.takeWhile isDigit
        let cs₂ := cs₁.drop intPart.length
        let (fracPart, cs₃) :=
          match cs₂ with
          | '.' :: rest =>
              match parseDigits rest with
              | some (ds, rest') => ('.' :: ds, rest')
              | none => ([], cs₂)
          | _ => ([], cs₂)
        -- a bare trailing dot is a parse error in JSON; detect it
        if cs₂ ≠ cs₃ ∨ ¬ (cs₂.head? = some '.') then
          let (expPart, cs₄) :=
            match cs₃ with
            | e :: rest =>
                if e = 'e' ∨ e = 'E' then
                  match rest with
                  | s :: rest' =>
                      if s = '+' ∨ s = '-' then
                        match parseDigits rest' with
                        | some (ds, rest'') => (e :: s :: ds, rest'')
                        | none => ([], cs₃)
                      else
                        match parseDigits rest with
                        | some (ds, rest'') => (e :: ds, rest'')
                        | none => ([], cs₃)
                  | [] => ([], cs₃)
                else ([], cs₃)
            | [] => ([], cs₃)
          some (String.mk (sign ++ intPart ++ fracPart ++ expPart), cs₄)
        else none

/-- Prepend a parsed object field to the (already collapsed) dict of the
fields that follow it, with Python-dict semantics: the first occurrence of
a key fixes its position, the last occurrence fixes its value. -/
def dictCons (k : String) (v : Json) (fs : List (String × Json)) :
    List (String × Json) :=
  match alget k fs with
  | some v' => (k, v') :: fs.filter fun p => p.1 ≠ k
  | none => (k, v) :: fs

mutual

/-- Parse one JSON value (leading whitespace allowed). -/
def parseValue : Nat → List Char → Option (Json × List Char)
  | 0, _ => none
  | Nat.succ fuel, cs =>
      match skipWs cs with
      | [] => none
      | 't' :: 'r' :: 'u' :: 'e' :: rest => some (.bool true, rest)
      | 'f' :: 'a' :: 'l' :: 's' :: 'e' :: rest => some (.bool false, rest)
      | 'n' :: 'u' :: 'l' :: 'l' :: rest => some (.null, rest)
      | 'N' :: 'a' :: 'N' :: rest => some (.num "NaN", rest)
      | 'I' :: 'n' :: 'f' :: 'i' :: 'n' :: 'i' :: 't' :: 'y' :: rest =>
          some (.num "Infinity", rest)
      | '-' :: 'I' :: 'n' :: 'f' :: 'i' :: 'n' :: 'i' :: 't' :: 'y' :: rest =>
          some (.num "-Infinity", rest)
      | '"' :: rest =>
          (parseStringBody (rest.length + 1) rest).map fun r => (.str r.1, r.2)
      | '[' :: rest => (parseArrElems fuel rest).map fun r => (.arr r.1, r.2)
      | '{' :: rest => (parseObjFields fuel rest).map fun r => (.obj r.1, r.2)
      | cs' => (parseNumber cs').map fun r => (.num r.1, r.2)

/-- Elements after `[`. -/
def parseArrElems : Nat → List Char → Option (List Json × List Char)
  | 0, _ => none
  | Nat.succ fuel, cs =>
      match skipWs cs with
      | ']' :: rest => some ([], rest)
      | cs' =>
          match parseValue fuel cs' with
          | none => none
          | some (v, rest) =>
              match parseArrTail fuel rest with
              | none => none
              | some (vs, rest') => some (v :: vs, rest')

/-- `, value`* then `]`. -/
def parseArrTail : Nat → List Char → Option (List Json × List Char)
  | 0, _ => none
  | Nat.succ fuel, cs =>
      match skipWs cs with
      | ']' :: rest => some ([], rest)
      | ',' :: rest =>
          match parseValue fuel rest with
          | none => none
          | some (v, rest') =>
              match parseArrTail fuel rest' with
              | none => none
              | some (vs, rest'') => some (v :: vs, rest'')
      | _ => none

/-- Fields after `{` (duplicates collapsed with dict semantics). -/
def parseObjFields : Nat → List Char → Option (List (String × Json) × List Char)
  | 0, _ => none
  | Nat.succ fuel, cs =>
      match skipWs cs with
      | '}' :: rest => some ([], rest)
      | '"' :: rest =>
          match parseStringBody (rest.length + 1) rest with
          | none => none
          | some (k, rest') =>
              match skipWs rest' with
              | ':' :: rest'' =>
                  match parseValue fuel rest'' with
                  | none => none
                  | some (v, rest₃) =>
                      match parseObjTail fuel rest₃ with
                      | none => none
                      | some (fs, rest₄) => some (dictCons k v fs, rest₄)
              | _ => none
      | _ => none

/-- `, "key": value`* then `}`. -/
def parseObjTail : Nat → List Char → Option (List (String × Json) × List Char)
  | 0, _ => none
  | Nat.succ fuel, cs =>
      match skipWs cs with
      | '}' :: rest => some ([], rest)
      | ',' :: rest =>
          match skipWs rest with
          | '"' :: rest' =>
              match parseStringBody (rest'.length + 1) rest' with
              | none => none
              | some (k, rest'') =>
                  match skipWs rest'' with
                  | ':' :: rest₃ =>
                      match parseValue fuel rest₃ with
                      | none => none
                      | some (v, rest₄) =>
                          match parseObjTail fuel rest₄ with
                          | none => none
                          | some (fs, rest₅) => some (dictCons k v fs, rest₅)
                  | _ => none
          | _ => none
      | _ => none

end

/-- `json.loads`: parse the whole text as one JSON value; `none` models a
raised `JSONDecodeError` (trailing non-whitespace is an error). -/
def loads (s : String) : Option Json :=
  match parseValue (2 * s.length + 4) s.data with
  | some (v, rest) => if skipWs rest = [] then some v else none
  | none => none

/-! ### `extract_json_from_response` (source lines 117-167)

Strategy 2 finds code blocks: a fence is three backquotes, optionally
followed by the tag `json`, then the lazily-matched group bracketed by
greedy `\s*`, then a closing fence — non-overlapping, left to right, so
the group is the inner text with surrounding whitespace stripped.  Pairing
non-overlapping fences is exactly splitting the text on the fence string
and taking the odd-indexed segments that are followed by a closing fence.

Strategy 3 uses `re.findall(r"(\{[\s\S]*\}|\[[\s\S]*\])", text)`: at each
scan position, a `{` matches greedily to the last `}` of the remaining
text (a `[` to the last `]`), and scanning resumes after the match. -/

/-- Python `\s` on the ASCII range (the inputs considered are ASCII). -/
def isPyWs (c : Char) : Bool :=
  c = ' ' ∨ c = '\t' ∨ c = '\n' ∨ c = '\r' ∨ c = Char.ofNat 11 ∨ c = Char.ofNat 12

/-- Strip leading and trailing `\s` characters (effect of the greedy
`\s*` bracketing the lazy group in the code-block pattern). -/
def stripChars (cs : List Char) : List Char :=
  ((cs.dropWhile isPyWs).reverse.dropWhile isPyWs).reverse

/-- The backquote character. -/
def bq : Char := Char.ofNat 96

/-- Split off the text before the first fence (three backquotes) and the
text after it; `none` when no fence occurs. -/
def findFence : List Char → Option (List Char × List Char)
  | [] => none
  | c :: cs =>
      if c = bq then
        match cs with
        | c2 :: c3 :: rest =>
            if c2 = bq ∧ c3 = bq then some ([], rest)
            else (findFence cs).map fun r => (c :: r.1, r.2)
        | _ => (findFence cs).map fun r => (c :: r.1, r.2)
      else (findFence cs).map fun r => (c :: r.1, r.2)

/-- Split the text on non-overlapping fences, left to right. -/
def splitFenceAux : Nat → List Char → List (List Char)
  | 0, cs => [cs]
  | Nat.succ fuel, cs =>
      match findFence cs with
      | none => [cs]
      | some (pre, post) => pre :: splitFenceAux fuel post

/-- Does the segment begin with the literal tag `json`? -/
def startsJson : List Char → Bool
  | 'j' :: 's' :: 'o' :: 'n' :: _ => true
  | _ => false

/-- Group captures of the code-block pattern, in the order found: the
odd-indexed fence-split segments that are followed by a closing fence,
with an immediate `json` tag dropped and surrounding whitespace
stripped. -/
def codeBlockCandidates (text : String) : List String :=
  let segs := splitFenceAux (text.length + 1) text.data
  (List.range segs.length).filterMap fun i =>
    if i % 2 = 1 ∧ i + 1 ≠ segs.length then
      segs[i]?.map fun seg =>
        String.mk (stripChars (if startsJson seg then seg.drop 4 else seg))
    else none

/-- Index of the last occurrence of `c`. -/
def lastIndexOf (c : Char) : List Char → Option Nat
  | [] => none
  | x :: xs =>
      match lastIndexOf c xs with
      | some i => some (i + 1)
      | none => if x = c then some 0 else none

/-- Left-to-right non-overlapping scan of the brace/bracket pattern. -/
def greedyScan : Nat → List Char → List String
  | 0, _ => []
  | _, [] => []
  | Nat.succ fuel, c :: rest =>
      if c = '{' then
        match lastIndexOf '}' rest with
        | some j =>
            String.mk (c :: rest.take (j + 1)) :: greedyScan fuel (rest.drop (j + 1))
        | none => greedyScan fuel rest
      else if c = '[' then
        match lastIndexOf ']' rest with
        | some j =>
            String.mk (c :: rest.take (j + 1)) :: greedyScan fuel (rest.drop (j + 1))
        | none => greedyScan fuel rest
      else greedyScan fuel rest

/-- Matches of the brace/bracket pattern, in the order found. -/
def jsonPatternCandidates (text : String) : List String :=
  greedyScan (text.length + 1) text.data

/-- Insert keeping earlier equal-length elements first (stability of
Python's `list.sort(key=len, reverse=True)`). -/
def insertByLenDesc (x : String) : List String → List String
  | [] => [x]
  | y :: ys =>
      if x.length ≤ y.length then y :: insertByLenDesc x ys
      else x :: y :: ys

/-- `matches.sort(key=len, reverse=True)`: stable, length descending. -/
def sortByLenDesc (l : List String) : List String :=
  l.foldl (fun acc x => insertByLenDesc x acc) []

/-- Try `json.loads` on each candidate, returning the first success. -/
def firstLoads : List String → Option Json
  | [] => none
  | s :: rest =>
      match loads s with
      | some v => some v
      | none => firstLoads rest

/-- `extract_json_from_response` (lines 117-167): the layered free-text
JSON recovery.  `none` models Python `None`. -/
def extract_json_from_response (text : String) : Option Json :=
  if text = "" then none
  else
    match loads text with
    | some v => some v
    | none =>
        match firstLoads (codeBlockCandidates text) with
        | some v => some v
        | none => firstLoads (sortByLenDesc (jsonPatternCandidates text))

/-- The specification's wording of §4.1 `recover`: a strict four-strategy
chain returning the first success — (1) the whole text, (2) each fenced
block in order, (3) the greedy candidates by descending length, (4) null.
Stated independently of the source definition for comparison. -/
def recoverSpec (text : String) : Option Json :=
  ((loads text).orElse fun _ =>
    firstLoads (codeBlockCandidates text)).orElse fun _ =>
      firstLoads (sortByLenDesc (jsonPatternCandidates text))

/-! ### Retrieval client: `search_serper_api` (source lines 20-51)

The HTTP layer (`requests.post`, redirect resolution, `raise_for_status`,
`response.json()`) is observed at its boundary: the oracle yields either a
transport failure or a final response with a status and a body string.
`raise_for_status` raises exactly for statuses 400-599. -/

inductive HttpResult where
  | transportError (msg : String)
  | response (status : Nat) (body : String)
deriving Repr

/-- The value returned to the caller together with the number of network
calls issued while producing it. -/
structure SearchCall where
  result : Json
  networkCalls : Nat
deriving Repr

def errEnvelope (msg : String) : Json := Json.obj [("error", Json.str msg)]

/-- Python's `if not api_key:` (line 25): the guard fires when
`os.getenv` returned `None` (variable unset) and also when the variable
is set to the empty string, which is falsy. -/
def keyFalsy (apiKey : Option String) : Bool :=
  match apiKey with
  | none => true
  | some k => k.data.isEmpty

/-- The `try` block of lines 44-51, reached once the key guard passed:
one network call; `raise_for_status` raises exactly for statuses 400-599,
and any raised exception is converted to an error envelope. -/
def serperFetch (http : HttpResult) : SearchCall :=
  match http with
  | .transportError e =>
      ⟨errEnvelope ("Error during Serper API request: " ++ e), 1⟩
  | .response status body =>
      if 400 ≤ status ∧ status < 600 then
        ⟨errEnvelope ("Error during Serper API request: HTTP error " ++
          toString status), 1⟩
      else
        match loads body with
        | some v => ⟨v, 1⟩
        | none =>
            ⟨errEnvelope
              "An unexpected error occurred: invalid JSON response body", 1⟩

def search_serper_api (apiKey : Option String) (http : HttpResult) : SearchCall :=
  if keyFalsy apiKey then
    ⟨errEnvelope "SERPER_API_KEY environment variable not set.", 0⟩
  else serperFetch http

/-! ### Roster configuration (`teams.json`)

A roster entry is `{ serie: string, teams: [...] }` where a team is either
a bare string (legacy) or an object `{ name, image }` (the source reads
`team_obj["name"]`, so `name` is required on the object form). -/

inductive TeamEntry where
  | legacy (name : String)
  | objEntry (name : String) (image : Option String)
deriving Repr

structure SeriesEntry where
  serie : String
  teams : List TeamEntry
deriving Repr

/-- The per-team context phase 1 iterates over (lines 215-222). -/
structure TeamCtx where
  name : String
  image : Option String
  serie : String
deriving Repr, DecidableEq

def teamEntryCtx (serie : String) : TeamEntry → TeamCtx
  | .legacy n => ⟨n, none, serie⟩
  | .objEntry n img => ⟨n, img, serie⟩

/-- `teams_with_series` (lines 215-222), flattened in roster order. -/
def teamsWithSeries (roster : List SeriesEntry) : List TeamCtx :=
  roster.flatMap fun s => s.teams.map (teamEntryCtx s.serie)

def rosterNames (roster : List SeriesEntry) : List String :=
  (teamsWithSeries roster).map (·.name)

/-- Value type of `teams_lookup` (lines 399-406). -/
structure TeamData where
  image : Option String
  serie : String
deriving Repr, DecidableEq

/-- `teams_lookup`: a dict keyed by team name; a duplicated team name keeps
its first position and its last `{image, serie}` value. -/
def teamsLookup (roster : List SeriesEntry) : List (String × TeamData) :=
  roster.foldl
    (fun acc s =>
      s.teams.foldl
        (fun acc t =>
          match t with
          | .legacy n => upsert n ⟨none, s.serie⟩ acc
          | .objEntry n img => upsert n ⟨img, s.serie⟩ acc)
        acc)
    []

def imageOf (lookup : List (String × TeamData)) (n : String) : Option String :=
  match alget n lookup with
  | some d => d.image
  | none => none

/-- `teams_lookup.get(team1, {}).get("serie", "Unknown")` (line 445). -/
def serieOf (lookup : List (String × TeamData)) (n : String) : String :=
  match alget n lookup with
  | some d => d.serie
  | none => "Unknown"

/-! ### Pipeline data model -/

/-- A `next_matches` dict value (lines 328-331): `.get` results, so each
field is `none` when the key is absent from the agent's object. -/
structure MatchInfo where
  opponent : Option Json
  datetime_brt : Option Json
deriving Repr

/-- One entry of a team's `matches` list. -/
structure MatchEntry where
  adversary : Json
  datetime_brt : Option Json
  channels : Json
deriving Repr

/-- One team's fragment of the final artifact (`matches'` embeds the
source's `matches` field, a Lean keyword). -/
structure TeamRecord where
  name : String
  image : Option String
  matches' : List MatchEntry
  error : Option String
deriving Repr

structure SeriesOut where
  name : String
  teams : List TeamRecord
deriving Repr

/-- The persisted artifact (`match_results.json`). -/
structure GroupedOutput where
  series : List SeriesOut
deriving Repr

/-- All team records of an artifact, in series order. -/
def allRecords (g : GroupedOutput) : List TeamRecord :=
  g.series.flatMap SeriesOut.teams

/-- The records carrying a given team name. -/
def recordsFor (g : GroupedOutput) (n : String) : List TeamRecord :=
  (allRecords g).filter fun r => r.name = n

/-- Outcome of one `Runner.run_sync` call on the extraction agent:
either the call raised, or it returned `final_output` (`""` models a
falsy output, i.e. Python `None` or the empty string). -/
inductive AgentOutcome where
  | raise (msg : String)
  | output (text : String)
deriving Repr

/-! ### Phase 1: `find_next_matches` (source lines 191-367) -/

/-- One entry of `all_calendar_results`: the envelope built by
`search_for_team_calendar` (lines 54-69), minus the opaque payload. -/
structure CalRecord where
  team : String
  error : Option String
deriving Repr, DecidableEq

/-- Lines 315-344: what one team contributes to `next_matches`, given the
agent outcome for its calendar prompt.  `none` means the team is left
absent from the dict; `some none` is an explicit `None` entry ("no
upcoming matches"); `some (some info)` is a resolved next match.  The
`.get("opponent")` call on a truthy non-dict `next_match` raises and is
caught at line 343, leaving the team absent. -/
def calEntry (ares : AgentOutcome) : Option (Option MatchInfo) :=
  match ares with
  | .raise _ => none
  | .output t =>
      if t = "" then none
      else
        match extract_json_from_response t with
        | none => none
        | some p =>
            if p.pyTruthy ∧ p.isDict ∧ p.hasKey "next_match" then
              match p.get "next_match" with
              | some nm =>
                  if nm.pyTruthy then
                    if nm.isDict then
                      some (some ⟨nm.get "opponent", nm.get "datetime_brt"⟩)
                    else none
                  else some none
              | none => none
            else none

/-- The per-team step of phase 1, combining search outcome (dict with
`error` set iff the search failed) and, when the search succeeded, one
agent invocation.  `entryOf` is what reaches `next_matches`. -/
def entryOf (cSearch : String → Option String) (cAgent : String → AgentOutcome)
    (t : TeamCtx) : Option (Option MatchInfo) :=
  match cSearch t.name with
  | some _ => none
  | none => calEntry (cAgent t.name)

structure Phase1State where
  nextMatches : List (String × Option MatchInfo)
  calRecords : List CalRecord
  agentCalls : List String
deriving Repr

/-- Loop body of lines 250-347, processing one completed calendar future:
append the raw envelope; on search error skip the agent (line 261);
otherwise invoke the agent once and record the extracted entry. -/
def phase1Step (cSearch : String → Option String) (cAgent : String → AgentOutcome)
    (st : Phase1State) (t : TeamCtx) : Phase1State :=
  match cSearch t.name with
  | some e => { st with calRecords := st.calRecords ++ [⟨t.name, some e⟩] }
  | none =>
      let st' := { st with
        calRecords := st.calRecords ++ [⟨t.name, none⟩],
        agentCalls := st.agentCalls ++ [t.name] }
      match calEntry (cAgent t.name) with
      | some entry =>
          { st' with nextMatches := upsert t.name entry st'.nextMatches }
      | none => st'

/-- The roster file as found on disk. -/
inductive RosterFile where
  | missing
  | badJson
  | ok (roster : List SeriesEntry)

/-- Result of `find_next_matches`: `abort` models `exit(1)` from
`setup_agent` (line 99); `done` carries the returned `next_matches` dict,
the raw calendar envelopes, the searches issued and the agent calls
made. -/
inductive Phase1Run where
  | abort
  | done (nextMatches : List (String × Option MatchInfo))
         (calRecords : List CalRecord)
         (searches : List String)
         (agentCalls : List String)

/-- Lines 349-367: package the loop's final state into the function's
result, with one search per submitted team. -/
def phase1Finish (st : Phase1State) (ord : List TeamCtx) : Phase1Run :=
  .done st.nextMatches st.calRecords (ord.map (·.name)) st.agentCalls

/-- `find_next_matches` (lines 191-367).  Order of early returns follows
the source: roster load errors and an empty team list return `{}` before
`setup_agent` runs; a missing `OPENAI_API_KEY` then exits.  `ord` is the
completion order in which the thread pool delivers the futures. -/
def find_next_matches (rosterFile : RosterFile) (hasOpenAI : Bool)
    (cSearch : String → Option String) (cAgent : String → AgentOutcome)
    (ord : List TeamCtx) : Phase1Run :=
  match rosterFile with
  | .missing => .done [] [] [] []
  | .badJson => .done [] [] [] []
  | .ok roster =>
      if teamsWithSeries roster = [] then .done [] [] [] []
      else if ¬ hasOpenAI then .abort
      else phase1Finish (ord.foldl (phase1Step cSearch cAgent) ⟨[], [], []⟩) ord

/-! ### Phase 2: `find_where_to_watch` (source lines 372-645) -/

/-- A phase-2 work item (lines 421-427). -/
structure Pair where
  team1 : String
  team2 : Json
  datetime_brt : Option Json
deriving Repr

/-- `team_pairs` (lines 421-427): one pair per `next_matches` entry whose
value is non-`None` and whose `opponent` is truthy, in dict order. -/
def teamPairs (nm : List (String × Option MatchInfo)) : List Pair :=
  nm.filterMap fun p =>
    match p.2 with
    | some info =>
        match info.opponent with
        | some op =>
            if op.pyTruthy then some ⟨p.1, op, info.datetime_brt⟩ else none
        | none => none
    | none => none

/-- The one-entry placeholder `matches` list used by every error branch of
the phase-2 loop (lines 458-462 and analogues). -/
def placeholderMatches (p : Pair) : List MatchEntry :=
  [⟨p.team2, p.datetime_brt, Json.arr []⟩]

/-- Lines 447-580: the `matches` list and `error` field of the FIRST
record appended for one pair, from its search outcome and (when the
search succeeded) one agent invocation.  The search function never raises
(`search_serper_api` catches everything), so the outer `except` of line
582 is not reachable through `future.result()`. -/
def pairOutcome (p : Pair) (sres : Option String) (ares : AgentOutcome) :
    List MatchEntry × Option String :=
  match sres with
  | some e => (placeholderMatches p, some ("Search failed: " ++ e))
  | none =>
      match ares with
      | .raise m => (placeholderMatches p, some ("Agent processing exception: " ++ m))
      | .output t =>
          if t = "" then (placeholderMatches p, some "No agent output")
          else
            match extract_json_from_response t with
            | some pj =>
                if pj.pyTruthy ∧ pj.isDict ∧ pj.hasKey "channels" then
                  ([⟨p.team2, p.datetime_brt, (pj.get "channels").getD Json.null⟩],
                    none)
                else
                  (placeholderMatches p,
                    some "Agent failed to return valid channels JSON")
            | none =>
                (placeholderMatches p,
                  some "Agent failed to return valid channels JSON")

/-- The first record appended for one pair: the subject (`name`) and the
`image` come from the pair and the lookup on every branch. -/
def pairRecord (lookup : List (String × TeamData)) (p : Pair)
    (sres : Option String) (ares : AgentOutcome) : TeamRecord :=
  ⟨p.team1, imageOf lookup p.team1,
    (pairOutcome p sres ares).1, (pairOutcome p sres ares).2⟩

/-- True iff control reaches the diagnostics-file `open` of line 554: the
search succeeded, the agent call returned truthy output, and the
recovered value failed the channels check (lines 528/541) — the only
branch whose record append is followed by a fallible file write inside
the `try` of line 521. -/
def diagWriteReached (sres : Option String) (ares : AgentOutcome) : Bool :=
  match sres with
  | some _ => false
  | none =>
      match ares with
      | .raise _ => false
      | .output t =>
          if t = "" then false
          else
            match extract_json_from_response t with
            | some pj => ¬ (pj.pyTruthy ∧ pj.isDict ∧ pj.hasKey "channels")
            | none => true

/-- The extra record the `except` of line 569 appends when the
diagnostics-file write raised with message `m` (`wres = some m`): the
`Agent processing exception` record with the placeholder matches list.
Nothing is appended when the write succeeded. -/
def diagExtra (lookup : List (String × TeamData)) (p : Pair)
    (wres : Option String) : List TeamRecord :=
  match wres with
  | some m =>
      [⟨p.team1, imageOf lookup p.team1, placeholderMatches p,
        some ("Agent processing exception: " ++ m)⟩]
  | none => []

/-- Lines 447-593 in full: ALL records appended for one completed pair.
Every branch appends the `pairRecord`; in the malformed-channels branch
the `open` of `watch_error_{team1}_vs_{team2}.txt` (line 554) then runs
inside the same `try`, and when it raises (e.g. because the
agent-produced opponent name contains a path separator) the `except` of
line 569 appends a SECOND record for the same pair. -/
def pairRecords (lookup : List (String × TeamData)) (p : Pair)
    (sres : Option String) (ares : AgentOutcome) (wres : Option String) :
    List TeamRecord :=
  pairRecord lookup p sres ares ::
    (if diagWriteReached sres ares then diagExtra lookup p wres else [])

/-- `processed_data_by_series` initialization (line 412): one empty bucket
per roster serie, in roster order. -/
def initProcessed (roster : List SeriesEntry) :
    List (String × List TeamRecord) :=
  roster.foldl (fun acc s => upsert s.serie [] acc) []

structure Phase2State where
  processed : List (String × List TeamRecord)
  agentCalls : List String
  crashed : Bool
deriving Repr

/-- Loop body of lines 440-593, processing one completed watch future:
append the records of `pairRecords` (one, or two when the diagnostics
write of line 554 fails).  If the pair's series name is not a bucket key,
the `append` raises `KeyError`, the outer handler re-raises it (line 584)
and the whole call dies: modelled by the `crashed` flag, which freezes
the state.  `wWrite` is the diagnostics-file oracle: `some m` means the
`open`/write for that subject raised with message `m`. -/
def phase2Step (lookup : List (String × TeamData))
    (wSearch : String → Option String) (wAgent : String → AgentOutcome)
    (wWrite : String → Option String)
    (st : Phase2State) (p : Pair) : Phase2State :=
  if st.crashed then st
  else
    let sname := serieOf lookup p.team1
    if alHasKey sname st.processed then
      { processed :=
          alUpdate sname
            (fun recs => recs ++
              pairRecords lookup p (wSearch p.team1) (wAgent p.team1)
                (wWrite p.team1))
            st.processed,
        agentCalls :=
          st.agentCalls ++ (if wSearch p.team1 = none then [p.team1] else []),
        crashed := false }
    else { st with crashed := true }

/-- Lines 597-608: add, to each series bucket, every `teams_lookup` team
of that serie not already present, with an empty `matches` list. -/
def addMissingTeams (lookup : List (String × TeamData))
    (processed : List (String × List TeamRecord)) :
    List (String × List TeamRecord) :=
  processed.map fun b =>
    let present := b.2.map TeamRecord.name
    (b.1,
      b.2 ++ lookup.filterMap fun q =>
        if q.2.serie = b.1 ∧ ¬ q.1 ∈ present then
          some ⟨q.1, q.2.image, [], none⟩
        else none)

/-- Lines 611-614: keep only the buckets that have teams. -/
def combineSeries (processed : List (String × List TeamRecord)) :
    GroupedOutput :=
  ⟨processed.filterMap fun b =>
    if b.2.isEmpty then none else some ⟨b.1, b.2⟩⟩

inductive Phase2Outcome where
  | emptyInput
  | abort
  | crashed
  | done (g : GroupedOutput)

structure Phase2Run where
  outcome : Phase2Outcome
  watchSearches : List String
  agentCalls : List String

/-- Lines 595-645: what `find_where_to_watch` does after its result loop —
either the loop died on a `KeyError`, or the missing teams are added, the
series are combined and the artifact is persisted. -/
def phase2Finish (roster : List SeriesEntry) (st : Phase2State)
    (ord : List Pair) : Phase2Run :=
  if st.crashed then ⟨.crashed, ord.map (·.team1), st.agentCalls⟩
  else
    ⟨.done (combineSeries (addMissingTeams (teamsLookup roster) st.processed)),
      ord.map (·.team1), st.agentCalls⟩

/-- `find_where_to_watch` (lines 372-645).  The roster is the successfully
re-loaded `teams.json` (in the pipeline the same file that phase 1 read);
`ord` is the completion order of the watch futures.  All submitted
searches execute even if the result loop dies, so `watchSearches` lists
every pair of `ord`.  The returned `done` artifact is both the function's
return value and the persisted `match_results.json`. -/
def find_where_to_watch (roster : List SeriesEntry) (hasOpenAI : Bool)
    (nm : List (String × Option MatchInfo))
    (wSearch : String → Option String) (wAgent : String → AgentOutcome)
    (wWrite : String → Option String)
    (ord : List Pair) : Phase2Run :=
  if nm.isEmpty then ⟨.emptyInput, [], []⟩
  else if ¬ hasOpenAI then ⟨.abort, [], []⟩
  else
    phase2Finish roster
      (ord.foldl (phase2Step (teamsLookup roster) wSearch wAgent wWrite)
        ⟨initProcessed roster, [], false⟩)
      ord

/-! ### Two-step pipeline: `fetch_and_process_football_matches`
(source lines 650-667) -/

inductive RunResult where
  | aborted
  | noArtifact
  | crashed
  | artifact (g : GroupedOutput)

structure PipelineRun where
  result : RunResult
  calSearches : List String
  watchSearches : List String

/-- The two-step pipeline: phase 1, then — only when `next_matches` is a
non-empty dict (line 662) — phase 2.  When phase 1 returns an empty dict
the function prints and returns `None`: no artifact is written.  When the
roster file fails to re-load inside phase 2 (only possible if it changed
on disk mid-run, which a single run cannot do) phase 2 returns `None` as
well; here the same `rosterFile` is threaded to both phases. -/
def fetch_and_process_football_matches (rosterFile : RosterFile)
    (hasOpenAI : Bool)
    (cSearch wSearch : String → Option String)
    (cAgent wAgent : String → AgentOutcome)
    (wWrite : String → Option String)
    (ord1 : List TeamCtx) (ord2 : List Pair) : PipelineRun :=
  match find_next_matches rosterFile hasOpenAI cSearch cAgent ord1 with
  | .abort => ⟨.aborted, [], []⟩
  | .done nm _cal searches _calls =>
      if nm.isEmpty then ⟨.noArtifact, searches, []⟩
      else
        match rosterFile with
        | .ok roster =>
            let p2 := find_where_to_watch roster hasOpenAI nm wSearch wAgent
              wWrite ord2
            match p2.outcome with
            | .done g => ⟨.artifact g, searches, p2.watchSearches⟩
            | .crashed => ⟨.crashed, searches, p2.watchSearches⟩
            | .abort => ⟨.aborted, searches, p2.watchSearches⟩
            | .emptyInput => ⟨.noArtifact, searches, p2.watchSearches⟩
        | _ => ⟨.noArtifact, searches, []⟩

/-! ### Proof-layer abbreviations (closed forms of the loops) -/

/-- The records the phase-2 loop appends for a pair (one, or two when the
malformed-channels diagnostics write fails). -/
def recOf (lookup : List (String × TeamData)) (wS : String → Option String)
    (wA : String → AgentOutcome) (wW : String → Option String) (p : Pair) :
    List TeamRecord :=
  pairRecords lookup p (wS p.team1) (wA p.team1) (wW p.team1)

/-- How many records the loop appends for the subject `n`: two exactly
when the malformed-channels branch is reached and the diagnostics write
fails, one otherwise. -/
def recCount (wS : String → Option String) (wA : String → AgentOutcome)
    (wW : String → Option String) (n : String) : Nat :=
  if diagWriteReached (wS n) (wA n) = true ∧ ¬ wW n = none then 2 else 1

/-- The closed form of the bucket contents the loop builds for serie `s`. -/
def bucketFor (lookup : List (String × TeamData)) (wS : String → Option String)
    (wA : String → AgentOutcome) (wW : String → Option String)
    (perm : List Pair) (s : String) :
    List TeamRecord :=
  (perm.filter fun p => serieOf lookup p.team1 = s).flatMap
    (recOf lookup wS wA wW)

/-- The closed form of the records lines 597-608 add to the bucket of
serie `s`. -/
def missingFor (lookup : List (String × TeamData)) (wS : String → Option String)
    (wA : String → AgentOutcome) (wW : String → Option String)
    (perm : List Pair) (s : String) :
    List TeamRecord :=
  lookup.filterMap fun q =>
    if q.2.serie = s ∧
        ¬ q.1 ∈ (bucketFor lookup wS wA wW perm s).map TeamRecord.name then
      some ⟨q.1, q.2.image, [], none⟩
    else none

/-- The names of the series of `g` that contain a record named `n`. -/
def seriesWith (g : GroupedOutput) (n : String) : List String :=
  (g.series.filter fun so => so.teams.any fun r => r.name = n).map SeriesOut.name

/-- The full closed-form contents of the bucket of serie `s` after the
loop and the add-missing pass. -/
def seriesContent (lookup : List (String × TeamData))
    (wS : String → Option String) (wA : String → AgentOutcome)
    (wW : String → Option String)
    (perm : List Pair) (s : String) : List TeamRecord :=
  bucketFor lookup wS wA wW perm s ++ missingFor lookup wS wA wW perm s

/-- The closed form of the artifact a crash-free phase-2 run persists. -/
def phase2Artifact (roster : List SeriesEntry) (wS : String → Option String)
    (wA : String → AgentOutcome) (wW : String → Option String)
    (perm : List Pair) : GroupedOutput :=
  combineSeries ((initProcessed roster).map fun b =>
    (b.1, seriesContent (teamsLookup roster) wS wA wW perm b.1))

/-- The name under which a roster team entry is processed. -/
def entryName : TeamEntry → String
  | .legacy n => n
  | .objEntry n _ => n

/-- The `next_matches` dict built by the phase-1 loop, as a plain fold of
`upsert`s of the per-team entries in completion order. -/
def nmFold (cS : String → Option String) (cA : String → AgentOutcome)
    (ord : List TeamCtx) (init : List (String × Option MatchInfo)) :
    List (String × Option MatchInfo) :=
  ord.foldl
    (fun nm t =>
      match entryOf cS cA t with
      | some e => upsert t.name e nm
      | none => nm)
    init

/-- The `next_matches` dict a phase-1 run returns (empty on abort),
used to phrase pipeline-level hypotheses about the phase-2 work items. -/
def phase1NextMatches (rosterFile : RosterFile) (hasOpenAI : Bool)
    (cSearch : String → Option String) (cAgent : String → AgentOutcome)
    (ord : List TeamCtx) : List (String × Option MatchInfo) :=
  match find_next_matches rosterFile hasOpenAI cSearch cAgent ord with
  | .abort => []
  | .done nm _ _ _ => nm

/-! ### Concrete run fixtures used by witnesses and counterexamples -/

/-- A one-serie, one-team roster: serie `A` with the single team
`Flamengo` (legacy bare-string form). -/
def rosterW : List SeriesEntry := [⟨"A", [.legacy "Flamengo"]⟩]

/-- Calendar searches succeed. -/
def cSW : String → Option String := fun _ => none

/-- The calendar agent resolves the next match against Vasco. -/
def cAW : String → AgentOutcome := fun _ =>
  .output "\x7b\"next_match\": \x7b\"opponent\": \"Vasco\", \"datetime_brt\": \"2024-05-01T16:00:00-03:00\"\x7d\x7d"

/-- The calendar agent reports no upcoming match (`next_match: null`). -/
def cAnullW : String → AgentOutcome := fun _ =>
  .output "\x7b\"next_match\": null\x7d"

/-- Watch searches succeed. -/
def wSW : String → Option String := fun _ => none

/-- The watch agent returns an empty channel list. -/
def wAW : String → AgentOutcome := fun _ =>
  .output "\x7b\"channels\": []\x7d"

/-- The watch agent returns output with no recoverable channels JSON. -/
def wAbadW : String → AgentOutcome := fun _ => .output "no json here"

/-- The diagnostics-file write succeeds whenever it runs. -/
def wWokW : String → Option String := fun _ => none

/-- The diagnostics-file write fails (e.g. the agent-produced opponent
name contains a path separator, so the `open` of line 554 raises). -/
def wWfailW : String → Option String :=
  fun _ => some "[Errno 2] No such file or directory"

/-- Phase-1 completion order: the roster order itself. -/
def ord1W : List TeamCtx := teamsWithSeries rosterW

/-- A two-team roster: serie `A` with `Flamengo` and `Santos`. -/
def roster2W : List SeriesEntry :=
  [⟨"A", [.legacy "Flamengo", .legacy "Santos"]⟩]

/-- Calendar search fails for `Flamengo` only. -/
def cS2W : String → Option String :=
  fun n => if n = "Flamengo" then some "net down" else none

/-- Phase-1 completion order for the two-team roster. -/
def ord12W : List TeamCtx := teamsWithSeries roster2W

/-- Phase-2 completion order for the two-team run. -/
def ord22W : List Pair := teamPairs (nmFold cS2W cAW ord12W [])

/-- The agent's output held no recoverable JSON object containing the key
`next_match`: recovery failed outright, or the recovered value is falsy,
not a dict, or lacks the key. -/
def noNextMatchKey (txt : String) : Prop :=
  ∀ p, extract_json_from_response txt = some p →
    ¬ (p.pyTruthy = true ∧ p.isDict = true ∧ p.hasKey "next_match" = true)

/-- Phase-2 completion order: the derived pairs in order. -/
def ord2W : List Pair := teamPairs (nmFold cSW cAW ord1W [])

theorem firstLoads_eq_none {l : List String}
    (h : (l.all fun s => (loads s).isNone) = true) : firstLoads l = none := by
  induction l with
  | nil => rfl
  | cons s rest ih =>
      simp only [List.all_cons, Bool.and_eq_true] at h
      have hs : loads s = none := by
        cases hval : loads s with
        | none => rfl
        | some v => rw [hval] at h; simp at h
      simp [firstLoads, hs, ih h.2]

/-- C4.  For every input string, `extract_json_from_response` equals the
specification's strict four-strategy chain `recoverSpec`: first parse the
whole text; else parse each fenced code block's inner text in order of
appearance; else parse the greedy brace/bracket-delimited candidates in
stable descending length order; else null.  (The source's shortcut return
on an empty input coincides with strategy 1-3 failure on it.) -/
theorem extract_json_follows_strategy_chain (text : String) :
    extract_json_from_response text = recoverSpec text := by
  unfold extract_json_from_response recoverSpec
  by_cases h : text = ""
  · subst h; rfl
  · simp only [if_neg h]
    cases hl : loads text with
    | some v => simp [Option.orElse]
    | none =>
        cases hc : firstLoads (codeBlockCandidates text) with
        | some v => simp [Option.orElse]
        | none => simp [Option.orElse]

/-- C5.  For every string on which all three parse strategies fail — the
whole text is not valid JSON, no fenced block's inner text is, and no
greedy brace/bracket candidate is — `extract_json_from_response` returns
`none`.  The embedding is a total function into `Option`: the source
catches `json.JSONDecodeError` at every parse attempt, so no exception
path exists and the empty string is handled by the explicit guard. -/
theorem extract_json_total_returns_none (text : String)
    (h1 : (loads text).isNone = true)
    (h2 : ((codeBlockCandidates text).all fun s => (loads s).isNone) = true)
    (h3 : ((sortByLenDesc (jsonPatternCandidates text)).all
      fun s => (loads s).isNone) = true) :
    extract_json_from_response text = none := by
  have hl : loads text = none := by
    cases hval : loads text with
    | none => rfl
    | some v => rw [hval] at h1; simp at h1
  unfold extract_json_from_response
  by_cases h : text = ""
  · simp [h]
  · simp only [if_neg h, hl, firstLoads_eq_none h2, firstLoads_eq_none h3]

/-- Witness for C5 at a concrete garbage input: the text contains an
unparseable brace-delimited candidate and no fenced block. -/
theorem extract_json_total_returns_none_witness :
    (loads "set x = \x7b1; 2\x7d maybe").isNone = true ∧
      extract_json_from_response "set x = \x7b1; 2\x7d maybe" = none :=
  ⟨rfl, extract_json_total_returns_none "set x = \x7b1; 2\x7d maybe" rfl rfl rfl⟩

/-- Counterexample for C9 as stated: a run with the credential present
whose final HTTP response has the non-2xx status 303 and a valid JSON
body is returned as a success envelope (no `error` key), not as an error
envelope — `raise_for_status` only raises for 4xx/5xx. -/
theorem search_serper_non2xx_counterexample :
    (search_serper_api (some "key")
        (.response 303 "\x7b\"organic\": []\x7d")).result =
      Json.obj [("organic", Json.arr [])] ∧
    Json.hasKey (search_serper_api (some "key")
        (.response 303 "\x7b\"organic\": []\x7d")).result "error" = false ∧
    (search_serper_api (some "key")
        (.response 303 "\x7b\"organic\": []\x7d")).networkCalls = 1 :=
  ⟨rfl, rfl, rfl⟩

/-- C9 (amended).  If the `SERPER_API_KEY` credential is falsy — the
variable unset, or set to the empty string (`if not api_key`) —
`search_serper_api` returns the fixed error envelope without issuing any
network call; otherwise it issues exactly one network call, maps a
transport failure or an HTTP status in 400-599 (the exact range
`raise_for_status` raises for) to an error envelope with a human-readable
message, and returns the parsed body for every other final status —
including a surviving 3xx and a status of 600 or more. -/
theorem search_serper_api_contract (apiKey : Option String) (http : HttpResult) :
    (keyFalsy apiKey = true →
      search_serper_api apiKey http =
        ⟨errEnvelope "SERPER_API_KEY environment variable not set.", 0⟩) ∧
    (keyFalsy apiKey = false → (search_serper_api apiKey http).networkCalls = 1) ∧
    (∀ e, keyFalsy apiKey = false → http = .transportError e →
      (search_serper_api apiKey http).result =
        errEnvelope ("Error during Serper API request: " ++ e)) ∧
    (∀ st body, keyFalsy apiKey = false → http = .response st body →
      400 ≤ st → st < 600 →
      (search_serper_api apiKey http).result =
        errEnvelope ("Error during Serper API request: HTTP error " ++
          toString st)) ∧
    (∀ st body v, keyFalsy apiKey = false → http = .response st body →
      ¬ (400 ≤ st ∧ st < 600) → loads body = some v →
      (search_serper_api apiKey http).result = v) := by
  refine ⟨?_, ?_, ?_, ?_, ?_⟩
  · intro hk
    rw [search_serper_api, if_pos hk]
  · intro hk
    have hk' : ¬ keyFalsy apiKey = true := by simp [hk]
    rw [search_serper_api, if_neg hk']
    cases http with
    | transportError e => rfl
    | response st body =>
        simp only [serperFetch]
        by_cases h4 : 400 ≤ st ∧ st < 600
        · simp [h4]
        · simp only [if_neg h4]
          cases loads body <;> rfl
  · rintro e hk rfl
    have hk' : ¬ keyFalsy apiKey = true := by simp [hk]
    rw [search_serper_api, if_neg hk']
    rfl
  · rintro st body hk rfl h4 h6
    have hk' : ¬ keyFalsy apiKey = true := by simp [hk]
    rw [search_serper_api, if_neg hk']
    simp [serperFetch, h4, h6]
  · rintro st body v hk rfl h46 hb
    have hk' : ¬ keyFalsy apiKey = true := by simp [hk]
    rw [search_serper_api, if_neg hk']
    simp [serperFetch, h46, hb]

/-- Witness for C9 (amended) at concrete inputs: a set-but-empty key is
falsy and issues no network call; a transport error with a real key maps
to the human-readable envelope; a final response with status 999 (outside
the 400-599 raising range) has its body parsed and returned. -/
theorem search_serper_api_contract_witness :
    keyFalsy (some "") = true ∧
    search_serper_api (some "") (.transportError "x") =
      ⟨errEnvelope "SERPER_API_KEY environment variable not set.", 0⟩ ∧
    keyFalsy (some "k") = false ∧
    (search_serper_api (some "k") (.transportError "boom")).result =
      errEnvelope ("Error during Serper API request: " ++ "boom") ∧
    (search_serper_api (some "k")
        (.response 999 "\x7b\"organic\": []\x7d")).result =
      Json.obj [("organic", Json.arr [])] :=
  ⟨rfl,
    (search_serper_api_contract (some "") (.transportError "x")).1 rfl,
    rfl,
    (search_serper_api_contract (some "k") (.transportError "boom")).2.2.1
      "boom" rfl rfl,
    (search_serper_api_contract (some "k")
        (.response 999 "\x7b\"organic\": []\x7d")).2.2.2.2 999
      "\x7b\"organic\": []\x7d" (Json.obj [("organic", Json.arr [])]) rfl rfl
      (fun hc => absurd hc.2 (by decide)) rfl⟩

/-! ### Association-list lemmas -/

theorem alUpdate_map_fst {α : Type} (k : String) (f : α → α)
    (l : List (String × α)) :
    (alUpdate k f l).map Prod.fst = l.map Prod.fst := by
  induction l with
  | nil => rfl
  | cons b rest ih =>
      obtain ⟨k', v⟩ := b
      by_cases h : k' = k <;> simp [alUpdate, h, ih]

theorem alHasKey_alUpdate {α : Type} (s k : String) (f : α → α)
    (l : List (String × α)) :
    alHasKey s (alUpdate k f l) = alHasKey s l := by
  induction l with
  | nil => rfl
  | cons b rest ih =>
      obtain ⟨k', v⟩ := b
      simp only [alHasKey, List.any_cons] at ih ⊢
      by_cases h : k' = k <;> simp [alUpdate, h, ih]

theorem alget_upsert {α : Type} (n k : String) (v : α) (l : List (String × α)) :
    alget n (upsert k v l) = if k = n then some v else alget n l := by
  induction l with
  | nil => simp only [upsert, alget]
  | cons b rest ih =>
      obtain ⟨k', w⟩ := b
      simp only [upsert]
      by_cases hk : k' = k
      · subst hk
        simp only [if_pos rfl, alget]
        by_cases hkn : k' = n <;> simp [hkn]
      · simp only [if_neg hk, alget]
        by_cases hn : k' = n
        · have h1 : ¬ k = n := fun hh => hk (hn.trans hh.symm)
          simp [hn, h1]
        · simp [hn, ih]

theorem upsert_map_fst {α : Type} (k : String) (v : α) (l : List (String × α)) :
    (upsert k v l).map Prod.fst =
      if k ∈ l.map Prod.fst then l.map Prod.fst else l.map Prod.fst ++ [k] := by
  induction l with
  | nil => simp [upsert]
  | cons b rest ih =>
      obtain ⟨k', w⟩ := b
      by_cases h : k' = k
      · subst h; simp [upsert]
      · have : ¬ k = k' := fun hh => h hh.symm
        by_cases hm : k ∈ rest.map Prod.fst <;>
          simp [upsert, h, this, hm, ih]

theorem nodup_upsert_map_fst {α : Type} (k : String) (v : α)
    {l : List (String × α)} (h : (l.map Prod.fst).Nodup) :
    ((upsert k v l).map Prod.fst).Nodup := by
  rw [upsert_map_fst]
  by_cases hm : k ∈ l.map Prod.fst
  · simpa [hm] using h
  · simpa [hm, List.nodup_append] using h

theorem mem_upsert_map_fst {α : Type} {n : String} (k : String) (v : α)
    (l : List (String × α)) :
    n ∈ (upsert k v l).map Prod.fst ↔ n = k ∨ n ∈ l.map Prod.fst := by
  rw [upsert_map_fst]
  by_cases hm : k ∈ l.map Prod.fst
  · simp only [if_pos hm]
    constructor
    · exact fun h => Or.inr h
    · rintro (rfl | h)
      · exact hm
      · exact h
  · simp [if_neg hm, or_comm]

theorem alHasKey_iff_mem {α : Type} (k : String) (l : List (String × α)) :
    alHasKey k l = true ↔ k ∈ l.map Prod.fst := by
  induction l with
  | nil => simp [alHasKey]
  | cons b rest ih =>
      obtain ⟨k', v⟩ := b
      by_cases h : k' = k
      · subst h; simp [alHasKey]
      · have h2 : ¬ k = k' := fun hh => h hh.symm
        simp only [alHasKey, List.any_cons] at ih ⊢
        simp [h, h2, ih]

theorem alget_isSome_of_hasKey {α : Type} {k : String} {l : List (String × α)}
    (h : alHasKey k l = true) : ∃ v, alget k l = some v := by
  induction l with
  | nil => simp [alHasKey] at h
  | cons b rest ih =>
      obtain ⟨k', v⟩ := b
      by_cases hk : k' = k
      · exact ⟨v, by simp [alget, hk]⟩
      · have h' : alHasKey k rest = true := by
          simp [alHasKey, hk] at h
          simp [alHasKey, h]
        simpa [alget, if_neg hk] using ih h'

theorem alget_eq_none_of_not_hasKey {α : Type} {k : String}
    {l : List (String × α)} (h : ¬ alHasKey k l = true) : alget k l = none := by
  induction l with
  | nil => rfl
  | cons b rest ih =>
      obtain ⟨k', v⟩ := b
      by_cases hk : k' = k
      · exact absurd (by simp [alHasKey, hk]) h
      · simp only [alget, if_neg hk]
        refine ih fun hc => h ?_
        simp only [alHasKey, List.any_cons]
        simp only [alHasKey] at hc
        simp [hc]

/-! ### Closed form of the phase-2 result loop -/

theorem alUpdate_append_map {R : Type} (k : String) (rs : List R)
    (T : String → List R) :
    ∀ (l : List (String × List R)), (l.map Prod.fst).Nodup →
      alHasKey k l = true →
      (alUpdate k (fun recs => recs ++ rs) l).map
          (fun b => (b.1, b.2 ++ T b.1)) =
        l.map (fun b => (b.1, b.2 ++ (if b.1 = k then rs ++ T b.1 else T b.1)))
  | [], _, _ => rfl
  | (k', v) :: rest, hnd, hk => by
      rw [List.map_cons, List.nodup_cons] at hnd
      by_cases h : k' = k
      · subst h
        simp only [alUpdate, eq_self_iff_true, if_true, ite_true, List.map_cons]
        refine congrArg₂ _ ?_ ?_
        · simp
        refine List.map_congr_left fun b hb => ?_
        have hb1 : ¬ b.1 = k' := by
          intro he
          refine hnd.1 ?_
          rw [← he]
          exact List.mem_map.mpr ⟨b, hb, rfl⟩
        simp [hb1]
      · simp only [alUpdate, if_neg h, List.map_cons, if_neg h]
        have hk' : alHasKey k rest = true := by
          simpa [alHasKey, h] using hk
        exact congrArg₂ _ rfl (alUpdate_append_map k rs T rest hnd.2 hk')

theorem phase2_fold_closed (lookup : List (String × TeamData))
    (wS : String → Option String) (wA : String → AgentOutcome)
    (wW : String → Option String) :
    ∀ (ord : List Pair) (st : Phase2State),
      st.crashed = false →
      (st.processed.map Prod.fst).Nodup →
      (∀ p ∈ ord, alHasKey (serieOf lookup p.team1) st.processed = true) →
      ord.foldl (phase2Step lookup wS wA wW) st =
        ⟨st.processed.map
            (fun b => (b.1, b.2 ++ bucketFor lookup wS wA wW ord b.1)),
          st.agentCalls ++
            ((ord.filter fun p => wS p.team1 = none).map (·.team1)),
          false⟩ := by
  intro ord
  induction ord with
  | nil =>
      intro st h1 _ _
      cases st with
      | mk pr ac cr =>
          simp only [List.foldl_nil, bucketFor, List.filter_nil,
            List.flatMap_nil, List.map_nil, List.append_nil]
          simp only [Phase2State.crashed] at h1
          subst h1
          congr 1
          exact (List.map_id pr).symm
  | cons p rest ih =>
      intro st h1 h2 h3
      have hk := h3 p (List.mem_cons_self p rest)
      have hstep : phase2Step lookup wS wA wW st p =
          ⟨alUpdate (serieOf lookup p.team1)
              (fun recs => recs ++
                pairRecords lookup p (wS p.team1) (wA p.team1) (wW p.team1))
              st.processed,
            st.agentCalls ++ (if wS p.team1 = none then [p.team1] else []),
            false⟩ := by
        simp [phase2Step, h1, hk]
      rw [List.foldl_cons, hstep,
        ih _ rfl (by rw [alUpdate_map_fst]; exact h2)
          (fun q hq => by
            rw [alHasKey_alUpdate]
            exact h3 q (List.mem_cons_of_mem p hq))]
      refine congrArg₂ (fun a b => Phase2State.mk a b false) ?_ ?_
      · rw [alUpdate_append_map _ _ _ _ h2 hk]
        refine List.map_congr_left fun b _ => ?_
        simp only [bucketFor, List.filter_cons]
        by_cases hc : serieOf lookup p.team1 = b.1
        · simp [hc, recOf, List.flatMap_cons]
        · have hc' : ¬ b.1 = serieOf lookup p.team1 := fun hh => hc hh.symm
          simp [hc, hc']
      · rw [List.filter_cons]
        by_cases hw : wS p.team1 = none
        · simp [hw, List.append_assoc]
        · simp [hw]

/-! ### Closed form of the phase-1 result loop -/

theorem phase1_fold_closed (cS : String → Option String)
    (cA : String → AgentOutcome) :
    ∀ (ord : List TeamCtx) (st : Phase1State),
      ord.foldl (phase1Step cS cA) st =
        ⟨nmFold cS cA ord st.nextMatches,
          st.calRecords ++ ord.map (fun t => ⟨t.name, cS t.name⟩),
          st.agentCalls ++
            ((ord.filter fun t => cS t.name = none).map (·.name))⟩ := by
  intro ord
  induction ord with
  | nil =>
      intro st
      cases st
      simp [nmFold]
  | cons t rest ih =>
      intro st
      rw [List.foldl_cons, ih]
      cases hs : cS t.name with
      | some e =>
          have hent : entryOf cS cA t = none := by simp [entryOf, hs]
          simp [phase1Step, hs, nmFold, hent, List.filter_cons]
      | none =>
          have hent : entryOf cS cA t = calEntry (cA t.name) := by
            simp [entryOf, hs]
          cases he : calEntry (cA t.name) with
          | some e =>
              simp [phase1Step, hs, nmFold, hent, he, List.filter_cons]
          | none =>
              simp [phase1Step, hs, nmFold, hent, he, List.filter_cons]

theorem nmFold_nodup (cS : String → Option String) (cA : String → AgentOutcome) :
    ∀ (ord : List TeamCtx) (init : List (String × Option MatchInfo)),
      (init.map Prod.fst).Nodup → ((nmFold cS cA ord init).map Prod.fst).Nodup := by
  intro ord
  induction ord with
  | nil => intro init h; exact h
  | cons t rest ih =>
      intro init h
      simp only [nmFold, List.foldl_cons]
      cases he : entryOf cS cA t with
      | some e => exact ih _ (nodup_upsert_map_fst t.name e h)
      | none => exact ih _ h

theorem mem_nmFold_keys (cS : String → Option String) (cA : String → AgentOutcome) :
    ∀ (ord : List TeamCtx) (init : List (String × Option MatchInfo)) (n : String),
      n ∈ (nmFold cS cA ord init).map Prod.fst →
      n ∈ init.map Prod.fst ∨ n ∈ ord.map (·.name) := by
  intro ord
  induction ord with
  | nil => intro init n h; exact Or.inl h
  | cons t rest ih =>
      intro init n h
      simp only [nmFold, List.foldl_cons] at h
      cases he : entryOf cS cA t with
      | some e =>
          rw [he] at h
          rcases ih _ n h with hin | hin
          · rcases (mem_upsert_map_fst t.name e init).mp hin with rfl | hin'
            · exact Or.inr (by simp)
            · exact Or.inl hin'
          · exact Or.inr (by simp [hin])
      | none =>
          rw [he] at h
          rcases ih _ n h with hin | hin
          · exact Or.inl hin
          · exact Or.inr (by simp [hin])

theorem nmFold_alget_none (cS : String → Option String)
    (cA : String → AgentOutcome) :
    ∀ (ord : List TeamCtx) (init : List (String × Option MatchInfo)) (n : String),
      ¬ n ∈ init.map Prod.fst →
      (∀ t ∈ ord, t.name = n → entryOf cS cA t = none) →
      alget n (nmFold cS cA ord init) = none := by
  intro ord
  induction ord with
  | nil =>
      intro init n hn _
      exact alget_eq_none_of_not_hasKey fun hc =>
        hn ((alHasKey_iff_mem n init).mp hc)
  | cons t rest ih =>
      intro init n hn hno
      simp only [nmFold, List.foldl_cons]
      cases he : entryOf cS cA t with
      | some e =>
          have hne : ¬ t.name = n := fun hh =>
            Option.noConfusion
              (he.symm.trans (hno t (List.mem_cons_self t rest) hh))
          refine ih _ n ?_ fun q hq => hno q (List.mem_cons_of_mem t hq)
          intro hc
          rcases (mem_upsert_map_fst t.name e init).mp hc with rfl | hin
          · exact hne rfl
          · exact hn hin
      | none =>
          exact ih _ n hn fun q hq => hno q (List.mem_cons_of_mem t hq)

/-! ### `team_pairs` lemmas -/

theorem teamPairs_team1_sublist :
    ∀ (nm : List (String × Option MatchInfo)),
      ((teamPairs nm).map Pair.team1).Sublist (nm.map Prod.fst)
  | [] => List.Sublist.refl _
  | (k, mi) :: rest => by
      cases mi with
      | none =>
          simp only [teamPairs, List.filterMap_cons, List.map_cons]
          exact (teamPairs_team1_sublist rest).cons k
      | some info =>
          cases hop : info.opponent with
          | none =>
              simp only [teamPairs, List.filterMap_cons, hop, List.map_cons]
              exact (teamPairs_team1_sublist rest).cons k
          | some op =>
              by_cases ht : op.pyTruthy = true
              · simp only [teamPairs, List.filterMap_cons, hop, if_pos ht,
                  List.map_cons]
                exact (teamPairs_team1_sublist rest).cons₂ k
              · simp only [teamPairs, List.filterMap_cons, hop, if_neg ht,
                  List.map_cons]
                exact (teamPairs_team1_sublist rest).cons k

theorem teamPairs_team1_nodup {nm : List (String × Option MatchInfo)}
    (h : (nm.map Prod.fst).Nodup) : ((teamPairs nm).map Pair.team1).Nodup :=
  h.sublist (teamPairs_team1_sublist nm)

theorem teamPairs_team1_mem {nm : List (String × Option MatchInfo)} {n : String}
    (h : n ∈ (teamPairs nm).map Pair.team1) : n ∈ nm.map Prod.fst :=
  (teamPairs_team1_sublist nm).subset h

theorem not_mem_teamPairs_of_alget {nm : List (String × Option MatchInfo)}
    {n : String} (hnd : (nm.map Prod.fst).Nodup)
    (h : alget n nm = none ∨ alget n nm = some none) :
    ¬ n ∈ (teamPairs nm).map Pair.team1 := by
  induction nm with
  | nil => simp [teamPairs]
  | cons b rest ih =>
      obtain ⟨k, mi⟩ := b
      rw [List.map_cons, List.nodup_cons] at hnd
      by_cases hk : k = n
      · subst hk
        have hmi : mi = none := by
          rcases h with h | h
          · simp [alget] at h
          · simpa [alget] using h
        subst hmi
        simp only [teamPairs, List.filterMap_cons]
        intro hc
        exact hnd.1 (teamPairs_team1_mem hc)
      · have h' : alget n rest = none ∨ alget n rest = some none := by
          rcases h with h | h
          · exact Or.inl (by simpa [alget, hk] using h)
          · exact Or.inr (by simpa [alget, hk] using h)
        have htail := ih hnd.2 h'
        cases mi with
        | none => simpa [teamPairs, List.filterMap_cons] using htail
        | some info =>
            cases hop : info.opponent with
            | none => simpa [teamPairs, List.filterMap_cons, hop] using htail
            | some op =>
                by_cases ht : op.pyTruthy = true
                · simp only [teamPairs, List.filterMap_cons, hop, if_pos ht,
                    List.map_cons, List.mem_cons]
                  rintro (rfl | hc)
                  · exact hk rfl
                  · exact htail (by simpa [teamPairs] using hc)
                · simpa [teamPairs, List.filterMap_cons, hop, if_neg ht]
                    using htail

/-! ### Roster and lookup lemmas -/

theorem alHasKey_upsert {α : Type} (n k : String) (v : α)
    (l : List (String × α)) :
    alHasKey n (upsert k v l) = true ↔ n = k ∨ alHasKey n l = true := by
  rw [alHasKey_iff_mem, mem_upsert_map_fst, alHasKey_iff_mem]

theorem teamEntryCtx_name (s : String) (t : TeamEntry) :
    (teamEntryCtx s t).name = entryName t := by cases t <;> rfl

/-- The inner per-series fold of `teams_lookup`. -/
theorem lookup_inner_nodup (s : SeriesEntry) :
    ∀ (teams : List TeamEntry) (acc : List (String × TeamData)),
      (acc.map Prod.fst).Nodup →
      ((teams.foldl
          (fun acc t =>
            match t with
            | .legacy n => upsert n ⟨none, s.serie⟩ acc
            | .objEntry n img => upsert n ⟨img, s.serie⟩ acc)
          acc).map Prod.fst).Nodup
  | [], acc, h => h
  | t :: rest, acc, h => by
      cases t with
      | legacy n =>
          exact lookup_inner_nodup s rest _ (nodup_upsert_map_fst n _ h)
      | objEntry n img =>
          exact lookup_inner_nodup s rest _ (nodup_upsert_map_fst n _ h)

theorem teamsLookup_nodup_aux :
    ∀ (roster : List SeriesEntry) (acc : List (String × TeamData)),
      (acc.map Prod.fst).Nodup →
      ((roster.foldl
          (fun acc s =>
            s.teams.foldl
              (fun acc t =>
                match t with
                | .legacy n => upsert n ⟨none, s.serie⟩ acc
                | .objEntry n img => upsert n ⟨img, s.serie⟩ acc)
              acc)
          acc).map Prod.fst).Nodup
  | [], acc, h => h
  | s :: rest, acc, h =>
      teamsLookup_nodup_aux rest _ (lookup_inner_nodup s s.teams acc h)

theorem teamsLookup_nodup (roster : List SeriesEntry) :
    ((teamsLookup roster).map Prod.fst).Nodup :=
  teamsLookup_nodup_aux roster [] List.nodup_nil

theorem lookup_inner_hasKey (s : SeriesEntry) :
    ∀ (teams : List TeamEntry) (acc : List (String × TeamData)) (n : String),
      alHasKey n
          (teams.foldl
            (fun acc t =>
              match t with
              | .legacy nm => upsert nm ⟨none, s.serie⟩ acc
              | .objEntry nm img => upsert nm ⟨img, s.serie⟩ acc)
            acc) = true ↔
        n ∈ teams.map entryName ∨ alHasKey n acc = true
  | [], acc, n => by simp
  | t :: rest, acc, n => by
      cases t with
      | legacy nm =>
          rw [List.foldl_cons]
          rw [lookup_inner_hasKey s rest _ n]
          rw [alHasKey_upsert]
          simp [entryName, or_comm, or_assoc, or_left_comm]
      | objEntry nm img =>
          rw [List.foldl_cons]
          rw [lookup_inner_hasKey s rest _ n]
          rw [alHasKey_upsert]
          simp [entryName, or_comm, or_assoc, or_left_comm]

theorem teamsLookup_hasKey_aux :
    ∀ (roster : List SeriesEntry) (acc : List (String × TeamData)) (n : String),
      alHasKey n
          (roster.foldl
            (fun acc s =>
              s.teams.foldl
                (fun acc t =>
                  match t with
                  | .legacy nm => upsert nm ⟨none, s.serie⟩ acc
                  | .objEntry nm img => upsert nm ⟨img, s.serie⟩ acc)
                acc)
            acc) = true ↔
        (∃ s ∈ roster, n ∈ s.teams.map entryName) ∨ alHasKey n acc = true
  | [], acc, n => by simp
  | s :: rest, acc, n => by
      rw [List.foldl_cons]
      rw [teamsLookup_hasKey_aux rest _ n]
      rw [lookup_inner_hasKey s s.teams acc n]
      constructor
      · rintro (⟨s', hs', hn⟩ | hn | hacc)
        · exact Or.inl ⟨s', List.mem_cons_of_mem s hs', hn⟩
        · exact Or.inl ⟨s, List.mem_cons_self s rest, hn⟩
        · exact Or.inr hacc
      · rintro (⟨s', hs', hn⟩ | hacc)
        · rcases List.mem_cons.mp hs' with rfl | hs''
          · exact Or.inr (Or.inl hn)
          · exact Or.inl ⟨s', hs'', hn⟩
        · exact Or.inr (Or.inr hacc)

theorem mem_rosterNames_iff (roster : List SeriesEntry) (n : String) :
    n ∈ rosterNames roster ↔ ∃ s ∈ roster, n ∈ s.teams.map entryName := by
  unfold rosterNames teamsWithSeries
  rw [List.map_flatMap]
  simp only [List.mem_flatMap, List.map_map]
  constructor
  · rintro ⟨s, hs, hn⟩
    refine ⟨s, hs, ?_⟩
    simpa [Function.comp, teamEntryCtx_name] using hn
  · rintro ⟨s, hs, hn⟩
    refine ⟨s, hs, ?_⟩
    simpa [Function.comp, teamEntryCtx_name] using hn

theorem teamsLookup_hasKey (roster : List SeriesEntry) (n : String) :
    alHasKey n (teamsLookup roster) = true ↔ n ∈ rosterNames roster := by
  rw [teamsLookup, teamsLookup_hasKey_aux, mem_rosterNames_iff]
  simp [alHasKey]

theorem lookup_inner_alget_serie (s : SeriesEntry) :
    ∀ (teams : List TeamEntry) (acc : List (String × TeamData)) (n : String)
      (d : TeamData),
      alget n
          (teams.foldl
            (fun acc t =>
              match t with
              | .legacy nm => upsert nm ⟨none, s.serie⟩ acc
              | .objEntry nm img => upsert nm ⟨img, s.serie⟩ acc)
            acc) = some d →
        d.serie = s.serie ∨ alget n acc = some d
  | [], acc, n, d => fun h => Or.inr h
  | t :: rest, acc, n, d => by
      intro h
      rw [List.foldl_cons] at h
      cases t with
      | legacy nm =>
          rcases lookup_inner_alget_serie s rest _ n d h with hs | hacc
          · exact Or.inl hs
          · rw [alget_upsert] at hacc
            by_cases hk : nm = n
            · rw [if_pos hk] at hacc
              exact Or.inl (by cases hacc; rfl)
            · rw [if_neg hk] at hacc
              exact Or.inr hacc
      | objEntry nm img =>
          rcases lookup_inner_alget_serie s rest _ n d h with hs | hacc
          · exact Or.inl hs
          · rw [alget_upsert] at hacc
            by_cases hk : nm = n
            · rw [if_pos hk] at hacc
              exact Or.inl (by cases hacc; rfl)
            · rw [if_neg hk] at hacc
              exact Or.inr hacc

theorem teamsLookup_alget_serie_aux :
    ∀ (roster : List SeriesEntry) (acc : List (String × TeamData)) (n : String)
      (d : TeamData),
      alget n
          (roster.foldl
            (fun acc s =>
              s.teams.foldl
                (fun acc t =>
                  match t with
                  | .legacy nm => upsert nm ⟨none, s.serie⟩ acc
                  | .objEntry nm img => upsert nm ⟨img, s.serie⟩ acc)
                acc)
            acc) = some d →
        d.serie ∈ roster.map SeriesEntry.serie ∨ alget n acc = some d
  | [], acc, n, d => fun h => Or.inr h
  | s :: rest, acc, n, d => by
      intro h
      rw [List.foldl_cons] at h
      rcases teamsLookup_alget_serie_aux rest _ n d h with hs | hacc
      · exact Or.inl (List.mem_cons_of_mem _ hs)
      · rcases lookup_inner_alget_serie s s.teams acc n d hacc with hs | hacc'
        · exact Or.inl (by simp [hs])
        · exact Or.inr hacc'

theorem initProcessed_hasKey_aux :
    ∀ (roster : List SeriesEntry) (acc : List (String × List TeamRecord))
      (x : String),
      alHasKey x (roster.foldl (fun acc s => upsert s.serie [] acc) acc) = true ↔
        x ∈ roster.map SeriesEntry.serie ∨ alHasKey x acc = true
  | [], acc, x => by simp
  | s :: rest, acc, x => by
      rw [List.foldl_cons, initProcessed_hasKey_aux rest _ x, alHasKey_upsert]
      simp [or_comm, or_assoc, or_left_comm]

theorem initProcessed_hasKey (roster : List SeriesEntry) (x : String) :
    alHasKey x (initProcessed roster) = true ↔
      x ∈ roster.map SeriesEntry.serie := by
  rw [initProcessed, initProcessed_hasKey_aux]
  simp [alHasKey]

theorem initProcessed_nodup_aux :
    ∀ (roster : List SeriesEntry) (acc : List (String × List TeamRecord)),
      (acc.map Prod.fst).Nodup →
      ((roster.foldl (fun acc s => upsert s.serie [] acc) acc).map
          Prod.fst).Nodup
  | [], acc, h => h
  | s :: rest, acc, h =>
      initProcessed_nodup_aux rest _ (nodup_upsert_map_fst s.serie [] h)

theorem initProcessed_nodup (roster : List SeriesEntry) :
    ((initProcessed roster).map Prod.fst).Nodup :=
  initProcessed_nodup_aux roster [] List.nodup_nil

/-- The bucket of a looked-up team's serie always exists. -/
theorem serieOf_hasKey {roster : List SeriesEntry} {n : String} {d : TeamData}
    (h : alget n (teamsLookup roster) = some d) :
    alHasKey (serieOf (teamsLookup roster) n) (initProcessed roster) = true := by
  have hser : d.serie ∈ roster.map SeriesEntry.serie := by
    rcases teamsLookup_alget_serie_aux roster [] n d h with hs | hacc
    · exact hs
    · simp [alget] at hacc
  rw [serieOf, h]
  exact (initProcessed_hasKey roster d.serie).mpr hser

/-! ### Per-bucket characterization of the artifact -/

theorem mem_upsert_entries {α : Type} {b : String × α} (k : String) (v : α) :
    ∀ (l : List (String × α)), b ∈ upsert k v l → b = (k, v) ∨ b ∈ l
  | [], h => by simpa [upsert] using h
  | (k', v') :: rest, h => by
      by_cases hk : k' = k
      · subst hk
        simp only [upsert, eq_self_iff_true, if_true, ite_true,
          List.mem_cons] at h
        exact h.imp id (List.mem_cons_of_mem _)
      · simp only [upsert, if_neg hk, List.mem_cons] at h
        rcases h with h2 | h2
        · exact Or.inr (List.mem_cons.mpr (Or.inl h2))
        · rcases mem_upsert_entries k v rest h2 with h' | h'
          · exact Or.inl h'
          · exact Or.inr (List.mem_cons_of_mem _ h')

theorem initProcessed_values_aux :
    ∀ (roster : List SeriesEntry) (acc : List (String × List TeamRecord)),
      (∀ b ∈ acc, b.2 = []) →
      ∀ b ∈ roster.foldl (fun acc s => upsert s.serie [] acc) acc, b.2 = []
  | [], _, h => h
  | s :: rest, acc, h => by
      refine initProcessed_values_aux rest _ fun b hb => ?_
      rcases mem_upsert_entries s.serie [] acc hb with rfl | hb'
      · rfl
      · exact h b hb'

theorem initProcessed_values (roster : List SeriesEntry) :
    ∀ b ∈ initProcessed roster, b.2 = [] :=
  initProcessed_values_aux roster [] (by simp)

theorem allRecords_combineSeries :
    ∀ (l : List (String × List TeamRecord)),
      allRecords (combineSeries l) = l.flatMap Prod.snd
  | [] => rfl
  | (s, recs) :: rest => by
      by_cases h : recs.isEmpty = true
      · have : recs = [] := by simpa [List.isEmpty_iff] using h
        subst this
        simp only [combineSeries, List.filterMap_cons, List.isEmpty_nil,
          if_pos rfl, List.flatMap_cons]
        simpa [combineSeries] using allRecords_combineSeries rest
      · simp only [combineSeries, List.filterMap_cons, if_neg h,
          List.flatMap_cons]
        have := allRecords_combineSeries rest
        simp only [combineSeries] at this
        simp [allRecords, this, allRecords] at this ⊢
        simp [this]

theorem flatMap_filter {α β : Type} (f : α → List β) (p : β → Bool) :
    ∀ (l : List α), (l.flatMap f).filter p = l.flatMap fun a => (f a).filter p
  | [] => rfl
  | a :: rest => by
      simp only [List.flatMap_cons, List.filter_append]
      rw [flatMap_filter f p rest]

theorem flatMapCongrMem {α β : Type} (f g : α → List β) :
    ∀ (l : List α), (∀ a ∈ l, f a = g a) → l.flatMap f = l.flatMap g
  | [], _ => rfl
  | a :: rest, h => by
      rw [List.flatMap_cons, List.flatMap_cons, h a (List.mem_cons_self a rest),
        flatMapCongrMem f g rest fun b hb => h b (List.mem_cons_of_mem a hb)]

theorem perm_flatMap {α β : Type} (F : α → List β) :
    ∀ {l l' : List α}, l.Perm l' → (l.flatMap F).Perm (l'.flatMap F) := by
  intro l l' h
  induction h with
  | nil => exact List.Perm.refl _
  | cons x _ ih => simpa [List.flatMap_cons] using ih.append_left (F x)
  | swap x y l =>
      simp only [List.flatMap_cons]
      rw [← List.append_assoc, ← List.append_assoc]
      exact List.perm_append_comm.append_right _
  | trans _ _ ih1 ih2 => exact ih1.trans ih2

theorem flatMap_singleton_map {α β : Type} (f : α → β) :
    ∀ (l : List α), (l.flatMap fun a => [f a]) = l.map f
  | [] => rfl
  | a :: rest => by
      rw [List.flatMap_cons, List.map_cons, flatMap_singleton_map f rest]
      rfl

theorem pairRecord_name (lookup : List (String × TeamData)) (p : Pair)
    (sres : Option String) (ares : AgentOutcome) :
    (pairRecord lookup p sres ares).name = p.team1 := rfl

theorem recOf_ne_nil (lookup : List (String × TeamData))
    (wS : String → Option String) (wA : String → AgentOutcome)
    (wW : String → Option String) (p : Pair) :
    ¬ recOf lookup wS wA wW p = [] := by
  rw [recOf, pairRecords]
  exact List.cons_ne_nil _ _

theorem recOf_mem_name (lookup : List (String × TeamData))
    (wS : String → Option String) (wA : String → AgentOutcome)
    (wW : String → Option String) (p : Pair) :
    ∀ r ∈ recOf lookup wS wA wW p, r.name = p.team1 := by
  intro r hr
  rw [recOf, pairRecords] at hr
  rcases List.mem_cons.mp hr with rfl | hr2
  · rfl
  · by_cases hd : diagWriteReached (wS p.team1) (wA p.team1) = true
    · rw [if_pos hd] at hr2
      cases hw : wW p.team1 with
      | some m =>
          rw [hw] at hr2
          simp only [diagExtra] at hr2
          rcases List.mem_singleton.mp hr2 with rfl
          rfl
      | none =>
          rw [hw] at hr2
          simp only [diagExtra] at hr2
          exact absurd hr2 (List.not_mem_nil r)
    · rw [if_neg hd] at hr2
      exact absurd hr2 (List.not_mem_nil r)

theorem recOf_names (lookup : List (String × TeamData))
    (wS : String → Option String) (wA : String → AgentOutcome)
    (wW : String → Option String) (p : Pair) :
    (recOf lookup wS wA wW p).map TeamRecord.name =
      List.replicate (recCount wS wA wW p.team1) p.team1 := by
  rw [recOf, pairRecords, recCount]
  by_cases hd : diagWriteReached (wS p.team1) (wA p.team1) = true
  · rw [if_pos hd]
    cases hw : wW p.team1 with
    | some m =>
        rw [if_pos ⟨hd, fun hc => Option.noConfusion hc⟩]
        rfl
    | none =>
        rw [if_neg (fun hc : _ ∧ ¬ (none : Option String) = none => hc.2 rfl)]
        rfl
  · rw [if_neg hd, if_neg (fun hc : _ ∧ _ => hd hc.1)]
    rfl

theorem recOf_length (lookup : List (String × TeamData))
    (wS : String → Option String) (wA : String → AgentOutcome)
    (wW : String → Option String) (p : Pair) :
    (recOf lookup wS wA wW p).length = recCount wS wA wW p.team1 := by
  have h := congrArg List.length (recOf_names lookup wS wA wW p)
  simpa using h

theorem recOf_filter_name (lookup : List (String × TeamData))
    (wS : String → Option String) (wA : String → AgentOutcome)
    (wW : String → Option String) (n : String) (p : Pair) :
    (recOf lookup wS wA wW p).filter (fun r => r.name = n) =
      if p.team1 = n then recOf lookup wS wA wW p else [] := by
  by_cases h : p.team1 = n
  · rw [if_pos h]
    refine List.filter_eq_self.mpr fun r hr => ?_
    simp [recOf_mem_name lookup wS wA wW p r hr, h]
  · rw [if_neg h]
    refine List.filter_eq_nil_iff.mpr fun r hr => ?_
    simp [recOf_mem_name lookup wS wA wW p r hr, h]

theorem recOf_filter_pred (lookup : List (String × TeamData))
    (wS : String → Option String) (wA : String → AgentOutcome)
    (wW : String → Option String) (P : String → Bool) (p : Pair) :
    (recOf lookup wS wA wW p).filter (fun r => P r.name) =
      if P p.team1 then recOf lookup wS wA wW p else [] := by
  by_cases h : P p.team1 = true
  · rw [if_pos h]
    refine List.filter_eq_self.mpr fun r hr => ?_
    rw [recOf_mem_name lookup wS wA wW p r hr]
    exact h
  · rw [if_neg h]
    refine List.filter_eq_nil_iff.mpr fun r hr => ?_
    rw [recOf_mem_name lookup wS wA wW p r hr]
    simpa using h

theorem flatMap_recOf_filter_name (lookup : List (String × TeamData))
    (wS : String → Option String) (wA : String → AgentOutcome)
    (wW : String → Option String) (n : String) :
    ∀ (l : List Pair),
      (l.flatMap (recOf lookup wS wA wW)).filter (fun r => r.name = n) =
        (l.filter fun p => p.team1 = n).flatMap (recOf lookup wS wA wW)
  | [] => rfl
  | p :: rest => by
      rw [List.flatMap_cons, List.filter_append,
        recOf_filter_name lookup wS wA wW n p, List.filter_cons]
      by_cases h : p.team1 = n
      · rw [if_pos h, if_pos (by simpa using h), List.flatMap_cons,
          flatMap_recOf_filter_name lookup wS wA wW n rest]
      · rw [if_neg h, if_neg (by simpa using h), List.nil_append,
          flatMap_recOf_filter_name lookup wS wA wW n rest]

theorem flatMap_recOf_names (lookup : List (String × TeamData))
    (wS : String → Option String) (wA : String → AgentOutcome)
    (wW : String → Option String) (l : List Pair) :
    (l.flatMap (recOf lookup wS wA wW)).map TeamRecord.name =
      l.flatMap fun p =>
        List.replicate (recCount wS wA wW p.team1) p.team1 := by
  rw [List.map_flatMap]
  exact flatMapCongrMem _ _ l fun p _ => recOf_names lookup wS wA wW p

theorem filter_team1_singleton :
    ∀ (perm : List Pair), ((perm.map Pair.team1).Nodup) →
      ∀ p ∈ perm, perm.filter (fun q => q.team1 = p.team1) = [p]
  | [], _, p, hp => absurd hp (List.not_mem_nil p)
  | q0 :: rest, hnd, p, hp => by
      rw [List.map_cons, List.nodup_cons] at hnd
      rcases List.mem_cons.mp hp with rfl | hp'
      · rw [List.filter_cons, if_pos (by simp)]
        have : rest.filter (fun q => q.team1 = p.team1) = [] := by
          rw [List.filter_eq_nil_iff]
          intro q hq hqe
          exact hnd.1 (by
            simp only [decide_eq_true_eq] at hqe
            rw [← hqe]
            exact List.mem_map.mpr ⟨q, hq, rfl⟩)
        rw [this]
      · have hne : ¬ q0.team1 = p.team1 := by
          intro he
          exact hnd.1 (he ▸ List.mem_map.mpr ⟨p, hp', rfl⟩)
        rw [List.filter_cons, if_neg (by simpa using hne)]
        exact filter_team1_singleton rest hnd.2 p hp'

theorem filter_eq_singleton_of_nodup :
    ∀ (keys : List String), keys.Nodup → ∀ t ∈ keys,
      keys.filter (fun s => s = t) = [t]
  | [], _, t, ht => absurd ht (List.not_mem_nil t)
  | k :: rest, hnd, t, ht => by
      rw [List.nodup_cons] at hnd
      rcases List.mem_cons.mp ht with rfl | ht'
      · rw [List.filter_cons, if_pos (by simp)]
        have : rest.filter (fun s => s = t) = [] := by
          rw [List.filter_eq_nil_iff]
          intro s hs hse
          simp only [decide_eq_true_eq] at hse
          exact hnd.1 (hse ▸ hs)
        rw [this]
      · have hne : ¬ k = t := fun he => hnd.1 (he ▸ ht')
        rw [List.filter_cons, if_neg (by simpa using hne)]
        exact filter_eq_singleton_of_nodup rest hnd.2 t ht'

theorem flatMap_ite_mem {R : Type} (t : String) (r : List R) :
    ∀ (keys : List String), keys.Nodup → t ∈ keys →
      (keys.flatMap fun s => if s = t then r else []) = r
  | [], _, ht => absurd ht (List.not_mem_nil t)
  | k :: rest, hnd, ht => by
      rw [List.nodup_cons] at hnd
      rcases List.mem_cons.mp ht with rfl | ht'
      · rw [List.flatMap_cons, if_pos rfl]
        have : (rest.flatMap fun s => if s = t then r else []) = [] := by
          rw [List.flatMap_eq_nil_iff]
          intro s hs
          rw [if_neg (fun (he : s = t) => hnd.1 (he ▸ hs))]
        rw [this, List.append_nil]
      · have hne : ¬ k = t := fun he => hnd.1 (he.symm ▸ ht')
        rw [List.flatMap_cons, if_neg hne, List.nil_append]
        exact flatMap_ite_mem t r rest hnd.2 ht'

theorem flatMap_ite_not_mem {R : Type} (t : String) (r : List R) :
    ∀ (keys : List String), ¬ t ∈ keys →
      (keys.flatMap fun s => if s = t then r else []) = []
  | [], _ => rfl
  | k :: rest, ht => by
      rw [List.flatMap_cons,
        if_neg (fun (he : k = t) => ht (he ▸ List.mem_cons_self k rest)),
        List.nil_append]
      exact flatMap_ite_not_mem t r rest fun hc => ht (List.mem_cons_of_mem k hc)

theorem filter_filterMap_ite {A R : Type} (C : A → Prop) [DecidablePred C]
    (F : A → R) (P : R → Bool) :
    ∀ (l : List A),
      ((l.filterMap fun q => if C q then some (F q) else none).filter P) =
        l.filterMap fun q => if C q ∧ P (F q) = true then some (F q) else none
  | [] => rfl
  | a :: rest => by
      by_cases hc : C a
      · rw [List.filterMap_cons, if_pos hc]
        by_cases hp : P (F a) = true
        · rw [List.filter_cons_of_pos hp, List.filterMap_cons,
            if_pos ⟨hc, hp⟩, filter_filterMap_ite C F P rest]
        · rw [List.filter_cons_of_neg (by simpa using hp), List.filterMap_cons,
            if_neg (fun hh : C a ∧ P (F a) = true => hp hh.2),
            filter_filterMap_ite C F P rest]
      · rw [List.filterMap_cons, if_neg hc, List.filterMap_cons,
          if_neg (fun hh : C a ∧ P (F a) = true => hc hh.1),
          filter_filterMap_ite C F P rest]

theorem filterMap_keyed {R : Type} (n : String) (G : String × TeamData → Option R)
    (hG : ∀ q, ¬ q.1 = n → G q = none) :
    ∀ (l : List (String × TeamData)), ((l.map Prod.fst).Nodup) →
      l.filterMap G =
        (match alget n l with
        | some d => (G (n, d)).toList
        | none => [])
  | [], _ => rfl
  | (k, d) :: rest, hnd => by
      rw [List.map_cons, List.nodup_cons] at hnd
      by_cases hk : k = n
      · subst hk
        have hrest : rest.filterMap G = [] := by
          rw [List.filterMap_eq_nil_iff]
          intro q hq
          refine hG q fun he => hnd.1 ?_
          rw [← he]
          exact List.mem_map.mpr ⟨q, hq, rfl⟩
        simp only [List.filterMap_cons, alget, if_pos rfl]
        cases hg : G (k, d) with
        | none => simp [hrest, hg]
        | some y => simp [hrest, hg]
      · simp only [List.filterMap_cons, hG (k, d) hk, alget, if_neg hk]
        exact filterMap_keyed n G hG rest hnd.2

theorem alget_of_mem_nodup {α : Type} {k : String} {v : α} :
    ∀ {l : List (String × α)}, (l.map Prod.fst).Nodup → (k, v) ∈ l →
      alget k l = some v
  | [], _, hm => absurd hm (List.not_mem_nil _)
  | (k', v') :: rest, hnd, hm => by
      rw [List.map_cons, List.nodup_cons] at hnd
      rcases List.mem_cons.mp hm with he | hm'
      · injection he with h1 h2
        subst h1; subst h2
        simp [alget]
      · have hk' : ¬ k' = k := by
          intro hh
          subst hh
          exact hnd.1 (List.mem_map.mpr ⟨(k', v), hm', rfl⟩)
        rw [alget, if_neg hk']
        exact alget_of_mem_nodup hnd.2 hm'

theorem bucketFor_names (lookup : List (String × TeamData))
    (wS : String → Option String) (wA : String → AgentOutcome)
    (wW : String → Option String) (perm : List Pair) (s : String) :
    (bucketFor lookup wS wA wW perm s).map TeamRecord.name =
      (perm.filter fun p => serieOf lookup p.team1 = s).flatMap fun p =>
        List.replicate (recCount wS wA wW p.team1) p.team1 := by
  rw [bucketFor, flatMap_recOf_names]

theorem mem_bucketFor_names (lookup : List (String × TeamData))
    (wS : String → Option String) (wA : String → AgentOutcome)
    (wW : String → Option String) (perm : List Pair) (s n : String) :
    n ∈ (bucketFor lookup wS wA wW perm s).map TeamRecord.name ↔
      ∃ p ∈ perm, serieOf lookup p.team1 = s ∧ p.team1 = n := by
  constructor
  · intro h
    rcases List.mem_map.mp h with ⟨r, hr, hrn⟩
    rcases List.mem_flatMap.mp hr with ⟨p, hp, hrp⟩
    rcases List.mem_filter.mp hp with ⟨hpm, hps⟩
    refine ⟨p, hpm, by simpa using hps, ?_⟩
    rw [← hrn, recOf_mem_name lookup wS wA wW p r hrp]
  · rintro ⟨p, hp, hs, rfl⟩
    refine List.mem_map.mpr
      ⟨pairRecord lookup p (wS p.team1) (wA p.team1), ?_, rfl⟩
    refine List.mem_flatMap.mpr
      ⟨p, List.mem_filter.mpr ⟨hp, by simpa using hs⟩, ?_⟩
    rw [recOf, pairRecords]
    exact List.mem_cons_self _ _

theorem bucket_filter_eq (lookup : List (String × TeamData))
    (wS : String → Option String) (wA : String → AgentOutcome)
    (wW : String → Option String) (perm : List Pair) (n s : String) :
    (bucketFor lookup wS wA wW perm s).filter (fun r => r.name = n) =
      (((perm.filter fun q => q.team1 = n).filter
          fun q => serieOf lookup q.team1 = s).flatMap
        (recOf lookup wS wA wW)) := by
  rw [bucketFor, flatMap_recOf_filter_name, List.filter_filter,
    List.filter_filter]
  refine congrArg (fun l => List.flatMap l (recOf lookup wS wA wW)) ?_
  refine List.filter_congr fun q _ => ?_
  rw [Bool.and_comm]

/-- Case A: a submitted pair's subject appears exactly in the bucket of
its serie, carrying the records the loop produced for the pair. -/
theorem seriesContent_filter_pair (roster : List SeriesEntry)
    (wS : String → Option String) (wA : String → AgentOutcome)
    (wW : String → Option String) (perm : List Pair) (p : Pair)
    (hnd : (perm.map Pair.team1).Nodup) (hp : p ∈ perm) (s : String) :
    (seriesContent (teamsLookup roster) wS wA wW perm s).filter
        (fun r => r.name = p.team1) =
      if s = serieOf (teamsLookup roster) p.team1
      then recOf (teamsLookup roster) wS wA wW p else [] := by
  have hsingle := filter_team1_singleton perm hnd p hp
  have hbucket :
      (bucketFor (teamsLookup roster) wS wA wW perm s).filter
          (fun r => r.name = p.team1) =
        if s = serieOf (teamsLookup roster) p.team1
        then recOf (teamsLookup roster) wS wA wW p else [] := by
    rw [bucket_filter_eq, hsingle]
    by_cases hs : serieOf (teamsLookup roster) p.team1 = s
    · rw [List.filter_cons, if_pos (by simpa using hs), hs]
      simp [List.flatMap_cons]
    · have hs' : ¬ s = serieOf (teamsLookup roster) p.team1 :=
        fun hh => hs hh.symm
      rw [List.filter_cons, if_neg (by simpa using hs)]
      simp [hs']
  have hmissing :
      (missingFor (teamsLookup roster) wS wA wW perm s).filter
          (fun r => r.name = p.team1) = [] := by
    rw [missingFor, filter_filterMap_ite]
    rw [List.filterMap_eq_nil_iff]
    rintro ⟨k, d⟩ hq
    rw [if_neg]
    rintro ⟨⟨hser, hmem⟩, hname⟩
    simp only [decide_eq_true_eq] at hname
    -- the record's name equals the pair's subject, so `k = p.team1`
    -- and the looked-up serie of `p.team1` is `d.serie = s`
    have hk : k = p.team1 := hname
    have halget : alget p.team1 (teamsLookup roster) = some d :=
      alget_of_mem_nodup (teamsLookup_nodup roster) (hk ▸ hq)
    have hserie : serieOf (teamsLookup roster) p.team1 = d.serie := by
      rw [serieOf, halget]
    apply hmem
    show k ∈ _
    rw [hk]
    refine (mem_bucketFor_names (teamsLookup roster) wS wA wW perm s
      p.team1).mpr ⟨p, hp, ?_, rfl⟩
    rw [hserie]
    exact hser
  rw [seriesContent, List.filter_append, hbucket, hmissing, List.append_nil]

/-- Case B: a roster team with no submitted pair appears exactly in the
bucket of its configured serie, with an empty `matches` list and no
error. -/
theorem seriesContent_filter_absent_known (roster : List SeriesEntry)
    (wS : String → Option String) (wA : String → AgentOutcome)
    (wW : String → Option String) (perm : List Pair) (n : String) (d : TeamData)
    (hnp : ¬ n ∈ perm.map Pair.team1)
    (halget : alget n (teamsLookup roster) = some d) (s : String) :
    (seriesContent (teamsLookup roster) wS wA wW perm s).filter
        (fun r => r.name = n) =
      if s = d.serie then [⟨n, d.image, [], none⟩] else [] := by
  have hbucket :
      (bucketFor (teamsLookup roster) wS wA wW perm s).filter
          (fun r => r.name = n) = [] := by
    rw [bucket_filter_eq]
    have : perm.filter (fun q => q.team1 = n) = [] := by
      rw [List.filter_eq_nil_iff]
      intro q hq hqe
      simp only [decide_eq_true_eq] at hqe
      exact hnp (hqe ▸ List.mem_map.mpr ⟨q, hq, rfl⟩)
    rw [this]
    rfl
  have hnotnames :
      ¬ n ∈ (bucketFor (teamsLookup roster) wS wA wW perm s).map
        TeamRecord.name := by
    intro hc
    rcases (mem_bucketFor_names (teamsLookup roster) wS wA wW perm s n).mp hc
      with ⟨q, hq, -, hqe⟩
    exact hnp (hqe ▸ List.mem_map.mpr ⟨q, hq, rfl⟩)
  have hmissing :
      (missingFor (teamsLookup roster) wS wA wW perm s).filter
          (fun r => r.name = n) =
        if s = d.serie then [⟨n, d.image, [], none⟩] else [] := by
    rw [missingFor, filter_filterMap_ite, filterMap_keyed n _ ?hG _
      (teamsLookup_nodup roster), halget]
    case hG =>
      rintro ⟨k, d'⟩ hk
      rw [if_neg]
      rintro ⟨-, hname⟩
      exact hk (by simpa using hname)
    by_cases hs : s = d.serie
    · subst hs
      simp [hnotnames]
    · have hs' : ¬ d.serie = s := fun hh => hs hh.symm
      simp [hs, hs']
  rw [seriesContent, List.filter_append, hbucket, hmissing, List.nil_append]

/-- Case C: a name outside both the pairs and the roster appears
nowhere. -/
theorem seriesContent_filter_absent_unknown (roster : List SeriesEntry)
    (wS : String → Option String) (wA : String → AgentOutcome)
    (wW : String → Option String) (perm : List Pair) (n : String)
    (hnp : ¬ n ∈ perm.map Pair.team1)
    (halget : alget n (teamsLookup roster) = none) (s : String) :
    (seriesContent (teamsLookup roster) wS wA wW perm s).filter
        (fun r => r.name = n) = [] := by
  have hbucket :
      (bucketFor (teamsLookup roster) wS wA wW perm s).filter
          (fun r => r.name = n) = [] := by
    rw [bucket_filter_eq]
    have : perm.filter (fun q => q.team1 = n) = [] := by
      rw [List.filter_eq_nil_iff]
      intro q hq hqe
      simp only [decide_eq_true_eq] at hqe
      exact hnp (hqe ▸ List.mem_map.mpr ⟨q, hq, rfl⟩)
    rw [this]
    rfl
  have hmissing :
      (missingFor (teamsLookup roster) wS wA wW perm s).filter
          (fun r => r.name = n) = [] := by
    rw [missingFor, filter_filterMap_ite, filterMap_keyed n _ ?hG _
      (teamsLookup_nodup roster)]
    case hG =>
      rintro ⟨k, d'⟩ hk
      rw [if_neg]
      rintro ⟨-, hname⟩
      exact hk (by simpa using hname)
    rw [halget]
  rw [seriesContent, List.filter_append, hbucket, hmissing, List.nil_append]

theorem flatMap_map_snd {B R : Type} (g : String → List R) :
    ∀ (l : List (String × B)),
      ((l.map fun b => (b.1, g b.1)).flatMap Prod.snd) =
        (l.map Prod.fst).flatMap g
  | [] => rfl
  | b :: rest => by
      simp only [List.map_cons, List.flatMap_cons]
      rw [flatMap_map_snd g rest]

theorem allRecords_phase2Artifact (roster : List SeriesEntry)
    (wS : String → Option String) (wA : String → AgentOutcome)
    (wW : String → Option String) (perm : List Pair) :
    allRecords (phase2Artifact roster wS wA wW perm) =
      ((initProcessed roster).map Prod.fst).flatMap
        (seriesContent (teamsLookup roster) wS wA wW perm) := by
  rw [phase2Artifact, allRecords_combineSeries, flatMap_map_snd]

/-- The records of a submitted pair's subject: exactly the records the
loop appended for the pair. -/
theorem recordsFor_artifact_pair (roster : List SeriesEntry)
    (wS : String → Option String) (wA : String → AgentOutcome)
    (wW : String → Option String) (perm : List Pair) (p : Pair)
    (hnd : (perm.map Pair.team1).Nodup) (hp : p ∈ perm)
    (hkey : alHasKey (serieOf (teamsLookup roster) p.team1)
      (initProcessed roster) = true) :
    recordsFor (phase2Artifact roster wS wA wW perm) p.team1 =
      recOf (teamsLookup roster) wS wA wW p := by
  rw [recordsFor, allRecords_phase2Artifact, flatMap_filter]
  have hfun :
      (fun s => (seriesContent (teamsLookup roster) wS wA wW perm s).filter
          (fun r => r.name = p.team1)) =
        fun s => if s = serieOf (teamsLookup roster) p.team1
          then recOf (teamsLookup roster) wS wA wW p else [] :=
    funext fun s => seriesContent_filter_pair roster wS wA wW perm p hnd hp s
  rw [hfun]
  exact flatMap_ite_mem _ _ _ (initProcessed_nodup roster)
    ((alHasKey_iff_mem _ _).mp hkey)

/-- The unique record of a roster team with no submitted pair. -/
theorem recordsFor_artifact_absent (roster : List SeriesEntry)
    (wS : String → Option String) (wA : String → AgentOutcome)
    (wW : String → Option String) (perm : List Pair) (n : String) (d : TeamData)
    (hnp : ¬ n ∈ perm.map Pair.team1)
    (halget : alget n (teamsLookup roster) = some d) :
    recordsFor (phase2Artifact roster wS wA wW perm) n =
      [⟨n, d.image, [], none⟩] := by
  rw [recordsFor, allRecords_phase2Artifact, flatMap_filter]
  have hfun :
      (fun s => (seriesContent (teamsLookup roster) wS wA wW perm s).filter
          (fun r => r.name = n)) =
        fun s => if s = d.serie then [(⟨n, d.image, [], none⟩ : TeamRecord)]
          else [] :=
    funext fun s =>
      seriesContent_filter_absent_known roster wS wA wW perm n d hnp halget s
  rw [hfun]
  refine flatMap_ite_mem _ _ _ (initProcessed_nodup roster) ?_
  refine (alHasKey_iff_mem _ _).mp ?_
  have := serieOf_hasKey halget
  rwa [serieOf, halget] at this

/-- A name outside the roster and the pairs has no record at all. -/
theorem recordsFor_artifact_unknown (roster : List SeriesEntry)
    (wS : String → Option String) (wA : String → AgentOutcome)
    (wW : String → Option String) (perm : List Pair) (n : String)
    (hnp : ¬ n ∈ perm.map Pair.team1)
    (halget : alget n (teamsLookup roster) = none) :
    recordsFor (phase2Artifact roster wS wA wW perm) n = [] := by
  rw [recordsFor, allRecords_phase2Artifact, flatMap_filter]
  have hfun :
      (fun s => (seriesContent (teamsLookup roster) wS wA wW perm s).filter
          (fun r => r.name = n)) = fun _ => ([] : List TeamRecord) :=
    funext fun s =>
      seriesContent_filter_absent_unknown roster wS wA wW perm n hnp halget s
  rw [hfun]
  simp

/-! ### Which series a record lands in -/

theorem seriesWith_combine (n : String) :
    ∀ (l : List (String × List TeamRecord)),
      seriesWith (combineSeries l) n =
        (l.filter fun b => b.2.any fun r => r.name = n).map Prod.fst
  | [] => rfl
  | (s, recs) :: rest => by
      by_cases he : recs.isEmpty = true
      · have hrecs : recs = [] := by simpa [List.isEmpty_iff] using he
        subst hrecs
        simp only [combineSeries, List.filterMap_cons, List.isEmpty_nil,
          if_pos rfl, List.filter_cons, List.any_nil]
        simpa [combineSeries, seriesWith] using seriesWith_combine n rest
      · simp only [combineSeries, List.filterMap_cons, if_neg he]
        have ih := seriesWith_combine n rest
        simp only [combineSeries] at ih
        by_cases ha : (recs.any fun r => r.name = n) = true
        · simp only [seriesWith, List.filter_cons] at ih ⊢
          rw [if_pos ha, if_pos ha, List.map_cons, List.map_cons, ih]
        · simp only [seriesWith, List.filter_cons] at ih ⊢
          rw [if_neg ha, if_neg ha, ih]

theorem any_name_iff (content : String → List TeamRecord) (n t : String)
    (r : List TeamRecord)
    (hchar : ∀ s, (content s).filter (fun x => x.name = n) =
      if s = t then r else [])
    (hr : r ≠ []) (s : String) :
    ((content s).any fun x => x.name = n) = true ↔ s = t := by
  constructor
  · intro ha
    rcases List.any_eq_true.mp ha with ⟨x, hx, hpx⟩
    by_contra hs
    have hf := hchar s
    rw [if_neg hs] at hf
    have : x ∈ (content s).filter (fun x => x.name = n) :=
      List.mem_filter.mpr ⟨hx, hpx⟩
    rw [hf] at this
    exact absurd this (List.not_mem_nil x)
  · rintro rfl
    have hf := hchar s
    rw [if_pos rfl] at hf
    cases hrr : r with
    | nil => exact absurd hrr hr
    | cons x xs =>
        rw [hrr] at hf
        have hx : x ∈ (content s).filter (fun y => y.name = n) := by
          rw [hf]
          exact List.mem_cons_self x xs
        have := List.mem_filter.mp hx
        exact List.any_eq_true.mpr ⟨x, this.1, this.2⟩

theorem filter_any_map_aux (content : String → List TeamRecord)
    (n t : String) (r : List TeamRecord)
    (hchar : ∀ s, (content s).filter (fun x => x.name = n) =
      if s = t then r else [])
    (hr : r ≠ []) :
    ∀ (init : List (String × List TeamRecord)),
      (init.map Prod.fst).Nodup → t ∈ init.map Prod.fst →
      (((init.map fun b => (b.1, content b.1)).filter
          fun b => b.2.any fun x => x.name = n).map Prod.fst) = [t]
  | [], _, ht => absurd ht (List.not_mem_nil t)
  | b :: rest, hnd, ht => by
      rw [List.map_cons, List.nodup_cons] at hnd
      rw [List.map_cons]
      by_cases hb : b.1 = t
      · rw [List.filter_cons_of_pos
          (by
            simpa using (any_name_iff content n t r hchar hr b.1).mpr hb)]
        rw [List.map_cons, hb]
        have htail :
            (rest.map fun b => (b.1, content b.1)).filter
              (fun b => b.2.any fun x => x.name = n) = [] := by
          rw [List.filter_eq_nil_iff]
          intro q hq hcond
          rcases List.mem_map.mp hq with ⟨q', hq', rfl⟩
          have : q'.1 = t :=
            (any_name_iff content n t r hchar hr q'.1).mp (by simpa using hcond)
          exact hnd.1 (hb ▸ this ▸ List.mem_map.mpr ⟨q', hq', rfl⟩)
        rw [htail]
        rfl
      · rw [List.filter_cons_of_neg
          (by
            simp only [decide_eq_true_eq]
            intro hc
            exact hb ((any_name_iff content n t r hchar hr b.1).mp
              (by simpa using hc)))]
        refine filter_any_map_aux content n t r hchar hr rest hnd.2 ?_
        rcases List.mem_cons.mp ht with he | ht'
        · exact absurd he.symm hb
        · exact ht'

theorem seriesWith_artifact_of_char (roster : List SeriesEntry)
    (wS : String → Option String) (wA : String → AgentOutcome)
    (wW : String → Option String)
    (perm : List Pair) (n t : String) (r : List TeamRecord)
    (hchar : ∀ s,
      (seriesContent (teamsLookup roster) wS wA wW perm s).filter
        (fun x => x.name = n) = if s = t then r else [])
    (hr : r ≠ []) (ht : t ∈ (initProcessed roster).map Prod.fst) :
    seriesWith (phase2Artifact roster wS wA wW perm) n = [t] := by
  rw [phase2Artifact, seriesWith_combine]
  exact filter_any_map_aux _ n t r hchar hr (initProcessed roster)
    (initProcessed_nodup roster) ht

/-! ### The phase-2 function on a crash-free run -/

theorem addMissing_closed (roster : List SeriesEntry)
    (wS : String → Option String) (wA : String → AgentOutcome)
    (wW : String → Option String) (ord : List Pair) :
    addMissingTeams (teamsLookup roster)
        ((initProcessed roster).map fun b =>
          (b.1, b.2 ++ bucketFor (teamsLookup roster) wS wA wW ord b.1)) =
      (initProcessed roster).map fun b =>
        (b.1, seriesContent (teamsLookup roster) wS wA wW ord b.1) := by
  rw [addMissingTeams, List.map_map]
  refine List.map_congr_left fun b hb => ?_
  obtain ⟨s, v⟩ := b
  have hval : v = [] := initProcessed_values roster (s, v) hb
  subst hval
  simp only [Function.comp, List.nil_append]
  rfl

theorem find_where_to_watch_done (roster : List SeriesEntry)
    (nm : List (String × Option MatchInfo))
    (wS : String → Option String) (wA : String → AgentOutcome)
    (wW : String → Option String) (ord : List Pair)
    (hnm : ¬ nm.isEmpty = true)
    (hk : ∀ p ∈ ord, alHasKey (serieOf (teamsLookup roster) p.team1)
      (initProcessed roster) = true) :
    find_where_to_watch roster true nm wS wA wW ord =
      ⟨.done (phase2Artifact roster wS wA wW ord),
        ord.map (·.team1),
        (ord.filter fun p => wS p.team1 = none).map (·.team1)⟩ := by
  rw [find_where_to_watch, if_neg hnm,
    if_neg (fun hc : ¬ true = true => hc rfl),
    phase2_fold_closed (teamsLookup roster) wS wA wW ord
      ⟨initProcessed roster, [], false⟩ rfl (initProcessed_nodup roster) hk,
    phase2Finish,
    if_neg (fun hc : false = true => Bool.noConfusion hc),
    phase2Artifact, addMissing_closed]
  rfl

/-! ### The pipeline on a run that reaches aggregation -/

theorem find_next_matches_done (roster : List SeriesEntry)
    (cS : String → Option String) (cA : String → AgentOutcome)
    (ord1 : List TeamCtx) (hteams : ¬ teamsWithSeries roster = []) :
    find_next_matches (.ok roster) true cS cA ord1 =
      .done (nmFold cS cA ord1 [])
        (ord1.map fun t => ⟨t.name, cS t.name⟩)
        (ord1.map (·.name))
        ((ord1.filter fun t => cS t.name = none).map (·.name)) := by
  rw [find_next_matches]
  rw [if_neg hteams, if_neg (fun hc : ¬ true = true => hc rfl),
    phase1_fold_closed, phase1Finish]
  rfl

theorem fetch_artifact_closed (roster : List SeriesEntry)
    (cS wS : String → Option String) (cA wA : String → AgentOutcome)
    (wW : String → Option String)
    (ord1 : List TeamCtx) (ord2 : List Pair)
    (hord1 : ord1.Perm (teamsWithSeries roster))
    (hord2 : ord2.Perm (teamPairs (nmFold cS cA ord1 [])))
    (hnm : ¬ (nmFold cS cA ord1 []).isEmpty = true) :
    fetch_and_process_football_matches (.ok roster) true cS wS cA wA wW
        ord1 ord2 =
      ⟨.artifact (phase2Artifact roster wS wA wW ord2),
        ord1.map (·.name), ord2.map (·.team1)⟩ := by
  have hteams : ¬ teamsWithSeries roster = [] := by
    intro hte
    have hord1' : ord1 = [] := List.Perm.eq_nil (hte ▸ hord1)
    rw [hord1'] at hnm
    exact hnm rfl
  have hk : ∀ p ∈ ord2, alHasKey (serieOf (teamsLookup roster) p.team1)
      (initProcessed roster) = true := by
    intro p hp
    have hmem1 : p.team1 ∈ (teamPairs (nmFold cS cA ord1 [])).map Pair.team1 :=
      List.mem_map.mpr ⟨p, hord2.subset hp, rfl⟩
    have hmem2 : p.team1 ∈ (nmFold cS cA ord1 []).map Prod.fst :=
      teamPairs_team1_mem hmem1
    have hmem3 : p.team1 ∈ ord1.map (·.name) := by
      rcases mem_nmFold_keys cS cA ord1 [] p.team1 hmem2 with h | h
      · exact absurd h (List.not_mem_nil _)
      · exact h
    have hmem4 : p.team1 ∈ rosterNames roster := by
      rw [rosterNames]
      have : (ord1.map (·.name)).Perm ((teamsWithSeries roster).map (·.name)) :=
        hord1.map _
      exact this.subset hmem3
    have hhk : alHasKey p.team1 (teamsLookup roster) = true :=
      (teamsLookup_hasKey roster p.team1).mpr hmem4
    rcases alget_isSome_of_hasKey hhk with ⟨d, hd⟩
    exact serieOf_hasKey hd
  rw [fetch_and_process_football_matches, find_next_matches_done roster cS cA
    ord1 hteams]
  dsimp only
  rw [if_neg hnm]
  rw [find_where_to_watch_done roster _ wS wA wW ord2 hnm hk]

/-! ### Partitioning a batch by bucket is a permutation of the batch -/

theorem flatMap_ite_cons_perm {α : Type} (t : String) (x : α) :
    ∀ (keys : List String), keys.Nodup → t ∈ keys →
      ∀ (F : String → List α),
      (keys.flatMap fun s => if t = s then x :: F s else F s).Perm
        (x :: keys.flatMap F)
  | [], _, ht, _ => absurd ht (List.not_mem_nil t)
  | k :: rest, hnd, ht, F => by
      rw [List.nodup_cons] at hnd
      rcases List.mem_cons.mp ht with rfl | ht'
      · rw [List.flatMap_cons, if_pos rfl, List.flatMap_cons]
        have hrest : (rest.flatMap fun s => if t = s then x :: F s else F s) =
            rest.flatMap F :=
          flatMapCongrMem _ _ rest fun s hs =>
            if_neg fun (he : t = s) => hnd.1 (he ▸ hs)
        rw [hrest, List.cons_append]
      · have hne : ¬ t = k := fun he => hnd.1 (he ▸ ht')
        rw [List.flatMap_cons, if_neg hne, List.flatMap_cons]
        refine ((flatMap_ite_cons_perm t x rest hnd.2 ht' F).append_left
          (F k)).trans ?_
        exact List.perm_middle

theorem partition_perm {α : Type} (keyOf : α → String) (keys : List String)
    (hnd : keys.Nodup) :
    ∀ (batch : List α), (∀ p ∈ batch, keyOf p ∈ keys) →
      (keys.flatMap fun s => batch.filter fun p => keyOf p = s).Perm batch
  | [], _ => by simp
  | p :: rest, hmem => by
      have step :
          (keys.flatMap fun s => (p :: rest).filter fun q => keyOf q = s) =
            keys.flatMap fun s =>
              if keyOf p = s then p :: rest.filter (fun q => keyOf q = s)
              else rest.filter fun q => keyOf q = s := by
        refine flatMapCongrMem _ _ keys fun s _ => ?_
        rw [List.filter_cons]
        by_cases hc : keyOf p = s
        · rw [if_pos (by simpa using hc), if_pos hc]
        · rw [if_neg (by simpa using hc), if_neg hc]
      rw [step]
      exact (flatMap_ite_cons_perm (keyOf p) p keys hnd
          (hmem p (List.mem_cons_self p rest)) _).trans
        ((partition_perm keyOf keys hnd rest
          fun q hq => hmem q (List.mem_cons_of_mem p hq)).cons p)

/-- Generalization of `flatMap_recOf_filter_name` to any predicate on the
subject. -/
theorem flatMap_recOf_filter_pred (lookup : List (String × TeamData))
    (wS : String → Option String) (wA : String → AgentOutcome)
    (wW : String → Option String) (P : String → Bool) :
    ∀ (l : List Pair),
      (l.flatMap (recOf lookup wS wA wW)).filter (fun r => P r.name) =
        (l.filter fun p => P p.team1).flatMap (recOf lookup wS wA wW)
  | [] => rfl
  | p :: rest => by
      rw [List.flatMap_cons, List.filter_append,
        recOf_filter_pred lookup wS wA wW P p, List.filter_cons]
      by_cases h : P p.team1 = true
      · rw [if_pos h, if_pos h, List.flatMap_cons,
          flatMap_recOf_filter_pred lookup wS wA wW P rest]
      · rw [if_neg h, if_neg h, List.nil_append,
          flatMap_recOf_filter_pred lookup wS wA wW P rest]

/-! ### Claim theorems about the pipeline -/

theorem hk_of_perms (roster : List SeriesEntry)
    (cS : String → Option String) (cA : String → AgentOutcome)
    (ord1 : List TeamCtx) (ord2 : List Pair)
    (hord1 : ord1.Perm (teamsWithSeries roster))
    (hord2 : ord2.Perm (teamPairs (nmFold cS cA ord1 []))) :
    ∀ p ∈ ord2, alHasKey (serieOf (teamsLookup roster) p.team1)
      (initProcessed roster) = true := by
  intro p hp
  have hmem2 : p.team1 ∈ (nmFold cS cA ord1 []).map Prod.fst :=
    teamPairs_team1_mem (List.mem_map.mpr ⟨p, hord2.subset hp, rfl⟩)
  have hmem3 : p.team1 ∈ ord1.map (·.name) := by
    rcases mem_nmFold_keys cS cA ord1 [] p.team1 hmem2 with h | h
    · exact absurd h (List.not_mem_nil _)
    · exact h
  have hmem4 : p.team1 ∈ rosterNames roster :=
    (hord1.map (·.name)).subset hmem3
  rcases alget_isSome_of_hasKey
    ((teamsLookup_hasKey roster p.team1).mpr hmem4) with ⟨d, hd⟩
  exact serieOf_hasKey hd

theorem fetch_noArtifact_of_empty_nm (roster : List SeriesEntry)
    (cS wS : String → Option String) (cA wA : String → AgentOutcome)
    (wW : String → Option String)
    (ord1 : List TeamCtx) (ord2 : List Pair)
    (hnm : (nmFold cS cA ord1 []).isEmpty = true) :
    (fetch_and_process_football_matches (.ok roster) true cS wS cA wA wW
      ord1 ord2).result = .noArtifact := by
  rw [fetch_and_process_football_matches]
  by_cases hteams : teamsWithSeries roster = []
  · rw [find_next_matches, if_pos hteams]
    rfl
  · rw [find_next_matches_done roster cS cA ord1 hteams]
    dsimp only
    rw [if_pos hnm]

/-- Counterexample for C1 as stated: a run that persists an artifact in
which the roster team `Flamengo` has TWO records, not exactly one.  The
watch agent returns output with no recoverable channels JSON, so the
malformed-channels branch appends its error record (lines 544-553) and
then opens the diagnostics file (line 554) inside the same `try`; the
open fails, and the `except` of line 569 appends a second record for the
same pair.  Both records survive aggregation (the add-missing pass skips
names already present), so "exactly once across all series" is false. -/
theorem artifact_duplicate_record_counterexample :
    (fetch_and_process_football_matches (.ok rosterW) true cSW wSW cAW wAbadW
        wWfailW ord1W ord2W).result =
      .artifact (phase2Artifact rosterW wSW wAbadW wWfailW ord2W) ∧
    "Flamengo" ∈ rosterNames rosterW ∧
    (recordsFor (phase2Artifact rosterW wSW wAbadW wWfailW ord2W)
        "Flamengo").length = 2 ∧
    (2 : Nat) ≠ 1 :=
  ⟨rfl, by decide, rfl, by decide⟩

/-- C1 (amended).  On every run of the two-phase pipeline that persists
an artifact, every team name of the roster configuration appears in the
artifact — never dropped — and only in the series of its configured serie
(the serie `teams_lookup` holds for that name).  A team with no submitted
phase-2 pair has exactly one record, with an empty `matches` list and no
error field.  A team with a submitted pair has exactly `recCount` records:
one, except in the corner where the watch agent returned output whose
recovered JSON failed the channels check AND the diagnostics-file write of
line 554 then failed, where the `except` of line 569 appends a second
record for the same pair, giving exactly two. -/
theorem artifact_roster_team_records (roster : List SeriesEntry)
    (cS wS : String → Option String) (cA wA : String → AgentOutcome)
    (wW : String → Option String)
    (ord1 : List TeamCtx) (ord2 : List Pair)
    (hord1 : ord1.Perm (teamsWithSeries roster))
    (hord2 : ord2.Perm (teamPairs (nmFold cS cA ord1 [])))
    (g : GroupedOutput)
    (hg : (fetch_and_process_football_matches (.ok roster) true cS wS cA wA wW
      ord1 ord2).result = .artifact g)
    (n : String) (hn : n ∈ rosterNames roster) :
    (¬ recordsFor g n = [] ∧ ∀ r ∈ recordsFor g n, r.name = n) ∧
    seriesWith g n = [serieOf (teamsLookup roster) n] ∧
    (recordsFor g n).length =
      (if n ∈ (teamPairs (nmFold cS cA ord1 [])).map Pair.team1
        then recCount wS wA wW n else 1) ∧
    (¬ n ∈ (teamPairs (nmFold cS cA ord1 [])).map Pair.team1 →
      recordsFor g n = [⟨n, imageOf (teamsLookup roster) n, [], none⟩]) := by
  have hnm : ¬ (nmFold cS cA ord1 []).isEmpty = true := by
    intro hc
    rw [fetch_noArtifact_of_empty_nm roster cS wS cA wA wW ord1 ord2 hc] at hg
    exact RunResult.noConfusion hg
  have hrun := fetch_artifact_closed roster cS wS cA wA wW ord1 ord2 hord1
    hord2 hnm
  have hge : g = phase2Artifact roster wS wA wW ord2 := by
    rw [hrun] at hg
    exact (RunResult.artifact.injEq _ _ ▸ hg).symm
  subst hge
  have hd : ∃ d, alget n (teamsLookup roster) = some d :=
    alget_isSome_of_hasKey ((teamsLookup_hasKey roster n).mpr hn)
  rcases hd with ⟨d, hd⟩
  have hserie : serieOf (teamsLookup roster) n = d.serie := by
    rw [serieOf, hd]
  have hnd2 : (ord2.map Pair.team1).Nodup :=
    ((hord2.map Pair.team1).nodup_iff).mpr
      (teamPairs_team1_nodup (nmFold_nodup cS cA ord1 [] List.nodup_nil))
  by_cases hmem : n ∈ (teamPairs (nmFold cS cA ord1 [])).map Pair.team1
  · rcases List.mem_map.mp hmem with ⟨p, hp, rfl⟩
    have hp2 : p ∈ ord2 := hord2.symm.subset hp
    have hkeyp : alHasKey (serieOf (teamsLookup roster) p.team1)
        (initProcessed roster) = true :=
      hk_of_perms roster cS cA ord1 ord2 hord1 hord2 p hp2
    have hrec := recordsFor_artifact_pair roster wS wA wW ord2 p hnd2 hp2 hkeyp
    refine ⟨⟨by rw [hrec]; exact recOf_ne_nil _ _ _ _ _,
        by rw [hrec]; exact recOf_mem_name _ _ _ _ _⟩,
      ?_, ?_, fun hc => absurd hmem hc⟩
    · exact seriesWith_artifact_of_char roster wS wA wW ord2 p.team1 _ _
        (seriesContent_filter_pair roster wS wA wW ord2 p hnd2 hp2)
        (recOf_ne_nil _ _ _ _ _) ((alHasKey_iff_mem _ _).mp hkeyp)
    · rw [hrec, recOf_length, if_pos hmem]
  · have hmem2 : ¬ n ∈ ord2.map Pair.team1 := fun hc =>
      hmem ((hord2.map Pair.team1).subset hc)
    have hrec := recordsFor_artifact_absent roster wS wA wW ord2 n d hmem2 hd
    have himg : imageOf (teamsLookup roster) n = d.image := by
      rw [imageOf, hd]
    refine ⟨⟨by rw [hrec]; exact List.cons_ne_nil _ _,
        by rw [hrec]; rintro r hr; rcases List.mem_singleton.mp hr with rfl; rfl⟩,
      ?_, by rw [hrec, if_neg hmem]; rfl, fun _ => by rw [hrec, himg]⟩
    rw [hserie]
    refine seriesWith_artifact_of_char roster wS wA wW ord2 n d.serie _
      (seriesContent_filter_absent_known roster wS wA wW ord2 n d hmem2 hd)
      (List.cons_ne_nil _ _) ?_
    refine (alHasKey_iff_mem _ _).mp ?_
    have := serieOf_hasKey hd
    rwa [serieOf, hd] at this

/-- Witness for C1 (amended) at concrete runs: on the normal run
`Flamengo` gets exactly one record; on the malformed-channels run whose
diagnostics write fails it gets exactly two. -/
theorem artifact_roster_team_records_witness :
    (recordsFor (phase2Artifact rosterW wSW wAW wWokW ord2W)
        "Flamengo").length = 1 ∧
    (recordsFor (phase2Artifact rosterW wSW wAbadW wWfailW ord2W)
        "Flamengo").length = 2 := by
  have hg1 : (fetch_and_process_football_matches (.ok rosterW) true cSW wSW
      cAW wAW wWokW ord1W ord2W).result =
      .artifact (phase2Artifact rosterW wSW wAW wWokW ord2W) := rfl
  have hg2 : (fetch_and_process_football_matches (.ok rosterW) true cSW wSW
      cAW wAbadW wWfailW ord1W ord2W).result =
      .artifact (phase2Artifact rosterW wSW wAbadW wWfailW ord2W) := rfl
  have h1 := artifact_roster_team_records rosterW cSW wSW cAW wAW wWokW
    ord1W ord2W (List.Perm.refl _) (List.Perm.refl _)
    (phase2Artifact rosterW wSW wAW wWokW ord2W) hg1 "Flamengo" (by decide)
  have h2 := artifact_roster_team_records rosterW cSW wSW cAW wAbadW wWfailW
    ord1W ord2W (List.Perm.refl _) (List.Perm.refl _)
    (phase2Artifact rosterW wSW wAbadW wWfailW ord2W) hg2 "Flamengo"
    (by decide)
  constructor
  · rw [h1.2.2.1]
    rfl
  · rw [h2.2.2.1]
    rfl

/-- Counterexample for C2 as stated: a roster with one team whose
phase-1 calendar search fails yields zero resolved opponents with an
*empty* `next_matches` dict; the pipeline then stops after phase 1 and
returns `None` — PERSIST never runs and no artifact containing the roster
team is written, contradicting "the PERSIST step still runs, writing an
all-empty-but-complete artifact". -/
theorem phase2_skip_counterexample :
    (fetch_and_process_football_matches (.ok rosterW) true
        (fun _ => some "network down") wSW cAW wAW wWokW ord1W []).result =
      .noArtifact ∧
    (∀ g : GroupedOutput, RunResult.noArtifact ≠ RunResult.artifact g) :=
  ⟨rfl, fun _ h => RunResult.noConfusion h⟩

/-- C2 (amended).  If phase 1 yields zero resolved opponents but records
at least one team (all entries with null or absent opponents, so
`team_pairs` is empty), phase 2's fan-out is never invoked — no watch
search runs — and PERSIST still writes an all-empty-but-complete
artifact: every roster team appears with an empty `matches` list and no
error.  (When the phase-1 mapping is empty, the pipeline instead stops
after phase 1 and persists nothing — see the counterexample.) -/
theorem phase2_fanout_skipped_on_zero_pairs (roster : List SeriesEntry)
    (cS wS : String → Option String) (cA wA : String → AgentOutcome)
    (wW : String → Option String)
    (ord1 : List TeamCtx)
    (hord1 : ord1.Perm (teamsWithSeries roster))
    (hnm : ¬ (nmFold cS cA ord1 []).isEmpty = true)
    (hzero : teamPairs (nmFold cS cA ord1 []) = []) :
    (fetch_and_process_football_matches (.ok roster) true cS wS cA wA wW
        ord1 []).watchSearches = [] ∧
    ∃ g : GroupedOutput,
      (fetch_and_process_football_matches (.ok roster) true cS wS cA wA wW
        ord1 []).result = .artifact g ∧
      ∀ n ∈ rosterNames roster,
        recordsFor g n = [⟨n, imageOf (teamsLookup roster) n, [], none⟩] := by
  have hord2 : ([] : List Pair).Perm (teamPairs (nmFold cS cA ord1 [])) := by
    rw [hzero]
  have hrun := fetch_artifact_closed roster cS wS cA wA wW ord1 [] hord1
    hord2 hnm
  rw [hrun]
  refine ⟨rfl, phase2Artifact roster wS wA wW [], rfl, fun n hn => ?_⟩
  rcases alget_isSome_of_hasKey
    ((teamsLookup_hasKey roster n).mpr hn) with ⟨d, hd⟩
  have himg : imageOf (teamsLookup roster) n = d.image := by
    rw [imageOf, hd]
  rw [himg]
  exact recordsFor_artifact_absent roster wS wA wW [] n d (by simp) hd

/-- Witness for C2 (amended): the calendar agent reports `next_match:
null` for the only team; the phase-1 dict is non-empty, no watch search
runs, and the artifact still lists the team with empty matches. -/
theorem phase2_fanout_skipped_on_zero_pairs_witness :
    ¬ (nmFold cSW cAnullW ord1W []).isEmpty = true ∧
    teamPairs (nmFold cSW cAnullW ord1W []) = [] ∧
    (fetch_and_process_football_matches (.ok rosterW) true cSW wSW cAnullW
      wAW wWokW ord1W []).watchSearches = [] ∧
    ∃ g : GroupedOutput,
      (fetch_and_process_football_matches (.ok rosterW) true cSW wSW cAnullW
        wAW wWokW ord1W []).result = .artifact g ∧
      ∀ n ∈ rosterNames rosterW,
        recordsFor g n = [⟨n, imageOf (teamsLookup rosterW) n, [], none⟩] := by
  have h := phase2_fanout_skipped_on_zero_pairs rosterW cSW wSW cAnullW wAW
    wWokW ord1W (List.Perm.refl _) (by decide) rfl
  exact ⟨by decide, rfl, h.1, h.2⟩

theorem loop_records_flatMap (roster : List SeriesEntry)
    (wS : String → Option String) (wA : String → AgentOutcome)
    (wW : String → Option String) (perm : List Pair)
    (hk : ∀ p ∈ perm, alHasKey (serieOf (teamsLookup roster) p.team1)
      (initProcessed roster) = true) :
    (perm.foldl (phase2Step (teamsLookup roster) wS wA wW)
        ⟨initProcessed roster, [], false⟩).processed.flatMap Prod.snd =
      ((initProcessed roster).map Prod.fst).flatMap
        (bucketFor (teamsLookup roster) wS wA wW perm) := by
  rw [phase2_fold_closed _ wS wA wW perm _ rfl (initProcessed_nodup roster) hk]
  have h1 : (initProcessed roster).map
      (fun b => (b.1, b.2 ++ bucketFor (teamsLookup roster) wS wA wW perm b.1)) =
      (initProcessed roster).map
        (fun b => (b.1, bucketFor (teamsLookup roster) wS wA wW perm b.1)) := by
    refine List.map_congr_left fun b hb => ?_
    obtain ⟨s, v⟩ := b
    have hv : v = [] := initProcessed_values roster (s, v) hb
    subst hv
    rfl
  dsimp only
  rw [h1, flatMap_map_snd]

theorem loop_records_names_perm (roster : List SeriesEntry)
    (wS : String → Option String) (wA : String → AgentOutcome)
    (wW : String → Option String) (perm : List Pair)
    (hk : ∀ p ∈ perm, alHasKey (serieOf (teamsLookup roster) p.team1)
      (initProcessed roster) = true) :
    (((perm.foldl (phase2Step (teamsLookup roster) wS wA wW)
        ⟨initProcessed roster, [], false⟩).processed.flatMap
          Prod.snd).map TeamRecord.name).Perm
      (perm.flatMap fun p =>
        List.replicate (recCount wS wA wW p.team1) p.team1) := by
  rw [loop_records_flatMap roster wS wA wW perm hk, List.map_flatMap]
  have h2 : (fun s => (bucketFor (teamsLookup roster) wS wA wW perm s).map
      TeamRecord.name) =
      fun s => (perm.filter fun p =>
        serieOf (teamsLookup roster) p.team1 = s).flatMap fun p =>
          List.replicate (recCount wS wA wW p.team1) p.team1 :=
    funext fun s => bucketFor_names (teamsLookup roster) wS wA wW perm s
  rw [h2]
  have h3 : (((initProcessed roster).map Prod.fst).flatMap fun s =>
      (perm.filter fun p =>
        serieOf (teamsLookup roster) p.team1 = s).flatMap fun p =>
          List.replicate (recCount wS wA wW p.team1) p.team1) =
      (((initProcessed roster).map Prod.fst).flatMap fun s =>
        perm.filter fun p =>
          serieOf (teamsLookup roster) p.team1 = s).flatMap fun p =>
            List.replicate (recCount wS wA wW p.team1) p.team1 :=
    (List.flatMap_assoc _ _ _).symm
  rw [h3]
  exact perm_flatMap _
    (partition_perm (fun p => serieOf (teamsLookup roster) p.team1) _
      (initProcessed_nodup roster) perm
      fun p hp => (alHasKey_iff_mem _ _).mp (hk p hp))

/-- Counterexample for C3 as stated: a batch of ONE submitted pair for
which the result loop appends TWO outcome records — the malformed-channels
record of lines 544-553 and, after the diagnostics-file open of line 554
raises, the `Agent processing exception` record of lines 571-580 — so the
coordination does not produce exactly N outcomes for N items and the
item-outcome correspondence is not a bijection. -/
theorem phase2_double_outcome_counterexample :
    ord2W.length = 1 ∧
    ((ord2W.foldl (phase2Step (teamsLookup rosterW) wSW wAbadW wWfailW)
        ⟨initProcessed rosterW, [], false⟩).processed.flatMap
          Prod.snd).length = 2 ∧
    (2 : Nat) ≠ 1 :=
  ⟨rfl, rfl, by decide⟩

/-- C3 (amended).  For every batch of work items the phase-2 result loop
produces, per submitted pair, exactly `recCount` records — one, or two in
the malformed-channels corner whose diagnostics write fails — with the
multiset of record subjects equal to the submitted subjects repeated with
those multiplicities, regardless of completion order; when no pair hits
the two-record corner the subject multiset equals the submitted subjects
exactly (a bijection for distinct subjects).  Replacing all three per-item
oracles by arbitrary other behaviour — in particular a failing one — for a
single subject leaves every other subject's records unchanged.  The
phase-1 loop emits exactly one calendar-result envelope per submitted
team, subjects matching the submitted teams. -/
theorem runBatch_outcome_multiplicity_isolation (roster : List SeriesEntry)
    (wS wS' cS : String → Option String) (wA wA' cA : String → AgentOutcome)
    (wW wW' : String → Option String)
    (pairs perm : List Pair) (subj : String)
    (teams ord1 : List TeamCtx)
    (hperm : perm.Perm pairs)
    (hk : ∀ p ∈ perm, alHasKey (serieOf (teamsLookup roster) p.team1)
      (initProcessed roster) = true)
    (hagree : ∀ m, ¬ m = subj →
      wS' m = wS m ∧ wA' m = wA m ∧ wW' m = wW m)
    (hord1 : ord1.Perm teams) :
    (((perm.foldl (phase2Step (teamsLookup roster) wS wA wW)
        ⟨initProcessed roster, [], false⟩).processed.flatMap
          Prod.snd).map TeamRecord.name).Perm
      (pairs.flatMap fun p =>
        List.replicate (recCount wS wA wW p.team1) p.team1) ∧
    ((∀ p ∈ pairs, recCount wS wA wW p.team1 = 1) →
      (((perm.foldl (phase2Step (teamsLookup roster) wS wA wW)
          ⟨initProcessed roster, [], false⟩).processed.flatMap
            Prod.snd).map TeamRecord.name).Perm (pairs.map Pair.team1)) ∧
    ((perm.foldl (phase2Step (teamsLookup roster) wS wA wW)
        ⟨initProcessed roster, [], false⟩).processed.flatMap
          Prod.snd).filter (fun r => ¬ r.name = subj) =
      ((perm.foldl (phase2Step (teamsLookup roster) wS' wA' wW')
        ⟨initProcessed roster, [], false⟩).processed.flatMap
          Prod.snd).filter (fun r => ¬ r.name = subj) ∧
    ((ord1.foldl (phase1Step cS cA) ⟨[], [], []⟩).calRecords.map
      CalRecord.team).Perm (teams.map TeamCtx.name) := by
  have hbase := (loop_records_names_perm roster wS wA wW perm hk).trans
    (perm_flatMap _ hperm)
  refine ⟨hbase, ?_, ?_, ?_⟩
  · intro hall
    refine hbase.trans ?_
    have he : (pairs.flatMap fun p =>
        List.replicate (recCount wS wA wW p.team1) p.team1) =
        pairs.map Pair.team1 := by
      rw [← flatMap_singleton_map Pair.team1 pairs]
      exact flatMapCongrMem _ _ pairs fun p hp => by rw [hall p hp]; rfl
    rw [he]
  · rw [loop_records_flatMap roster wS wA wW perm hk,
      loop_records_flatMap roster wS' wA' wW' perm hk,
      flatMap_filter, flatMap_filter]
    refine flatMapCongrMem _ _ _ fun s _ => ?_
    rw [bucketFor, bucketFor,
      flatMap_recOf_filter_pred (teamsLookup roster) wS wA wW
        (fun m => ¬ m = subj) _,
      flatMap_recOf_filter_pred (teamsLookup roster) wS' wA' wW'
        (fun m => ¬ m = subj) _]
    refine flatMapCongrMem _ _ _ fun q hq => ?_
    have hqs : ¬ q.team1 = subj := by
      have := (List.mem_filter.mp hq).2
      simpa using this
    rw [recOf, recOf, (hagree q.team1 hqs).1, (hagree q.team1 hqs).2.1,
      (hagree q.team1 hqs).2.2]
  · rw [phase1_fold_closed cS cA ord1 ⟨[], [], []⟩]
    dsimp only
    rw [List.nil_append, List.map_map]
    exact hord1.map _

/-- Witness for C3 (amended) at a concrete batch: one pair, with the
primed oracles failing the search for the lone subject; the outcome
subjects match the submitted pairs with their multiplicities (here 1) and
the (empty) remainder is unaffected. -/
theorem runBatch_outcome_multiplicity_isolation_witness :
    (((ord2W.foldl (phase2Step (teamsLookup rosterW) wSW wAW wWokW)
        ⟨initProcessed rosterW, [], false⟩).processed.flatMap
          Prod.snd).map TeamRecord.name).Perm
      (ord2W.flatMap fun p =>
        List.replicate (recCount wSW wAW wWokW p.team1) p.team1) ∧
    ((ord2W.foldl (phase2Step (teamsLookup rosterW) wSW wAW wWokW)
        ⟨initProcessed rosterW, [], false⟩).processed.flatMap
          Prod.snd).filter (fun r => ¬ r.name = "Flamengo") =
      ((ord2W.foldl (phase2Step (teamsLookup rosterW)
          (fun m => if m = "Flamengo" then some "boom" else none) wAW wWokW)
        ⟨initProcessed rosterW, [], false⟩).processed.flatMap
          Prod.snd).filter (fun r => ¬ r.name = "Flamengo") := by
  have hk : ∀ p ∈ ord2W, alHasKey (serieOf (teamsLookup rosterW) p.team1)
      (initProcessed rosterW) = true := by
    intro p hp
    have hord : ord2W = [⟨"Flamengo", Json.str "Vasco",
        some (Json.str "2024-05-01T16:00:00-03:00")⟩] := rfl
    rw [hord] at hp
    rcases List.mem_singleton.mp hp with rfl
    rfl
  have h := runBatch_outcome_multiplicity_isolation rosterW wSW
    (fun m => if m = "Flamengo" then some "boom" else none) cSW wAW wAW cAW
    wWokW wWokW ord2W ord2W "Flamengo" ord1W ord1W
    (List.Perm.refl _) hk
    (fun m hm =>
      ⟨by show (if m = "Flamengo" then _ else _) = _; rw [if_neg hm]; rfl,
        rfl, rfl⟩)
    (List.Perm.refl _)
  exact ⟨h.1, h.2.2.1⟩

/-- Counterexample for C6 as stated: on the claimed scenario (roster
serie `A` with team `Flamengo`, phase-2 search transport error) the
persisted record carries a one-entry placeholder `matches` list — the
pair's adversary and datetime with empty channels — not the empty
`matches: []` the claim asserts (its length is 1, not 0). -/
theorem flamengo_search_error_counterexample :
    (fetch_and_process_football_matches (.ok rosterW) true cSW
        (fun _ => some "connection refused") cAW wAW wWokW ord1W
        ord2W).result =
      .artifact
        ⟨[⟨"A", [⟨"Flamengo", none,
          [⟨Json.str "Vasco", some (Json.str "2024-05-01T16:00:00-03:00"),
            Json.arr []⟩],
          some "Search failed: connection refused"⟩]⟩]⟩ ∧
    (recordsFor
        ⟨[⟨"A", [⟨"Flamengo", none,
          [⟨Json.str "Vasco", some (Json.str "2024-05-01T16:00:00-03:00"),
            Json.arr []⟩],
          some "Search failed: connection refused"⟩]⟩]⟩
        "Flamengo").map (fun r => r.matches'.length) = [1] ∧
    (1 : Nat) ≠ 0 :=
  ⟨rfl, rfl, by decide⟩

/-- C6 (amended).  For the roster `[(serie A, [Flamengo])]`, when phase 1
resolves the next match (opponent Vasco) and the phase-2 where-to-watch
search returns a transport error `e`, the persisted artifact is exactly
`{series: [{name: A, teams: [{name: Flamengo, matches: [{adversary:
Vasco, datetime_brt: …, channels: []}], error: "Search failed: " ++ e}]}]}`
— the team is present with the error string prefixed `Search failed: `,
and `matches` holds the single placeholder entry built from the pair, not
an empty list.  (If instead the phase-1 calendar search fails, the
pipeline stops after phase 1 and persists nothing.) -/
theorem flamengo_search_error_artifact (e : String)
    (wW : String → Option String) :
    fetch_and_process_football_matches (.ok rosterW) true cSW
        (fun _ => some e) cAW wAW wW ord1W ord2W =
      ⟨.artifact
        ⟨[⟨"A", [⟨"Flamengo", none,
          [⟨Json.str "Vasco", some (Json.str "2024-05-01T16:00:00-03:00"),
            Json.arr []⟩],
          some ("Search failed: " ++ e)⟩]⟩]⟩,
        ["Flamengo"], ["Flamengo"]⟩ :=
  rfl

/-- C7.  In both fan-out loops, a work item whose retrieval result
carries an error is recorded as a search-failed outcome immediately and
the extraction agent is never invoked for it: the agent-call trace equals
exactly the search-succeeded items, a failed phase-2 pair's records are
exactly the one placeholder record with error `"Search failed: " ++ e`,
and a failed phase-1 team's calendar envelope carries its search error
(every envelope's `error` field is the search outcome verbatim). -/
theorem search_failure_skips_agent (roster : List SeriesEntry)
    (cS wS : String → Option String) (cA wA : String → AgentOutcome)
    (wW : String → Option String)
    (ord1 : List TeamCtx) (perm : List Pair)
    (hk : ∀ p ∈ perm, alHasKey (serieOf (teamsLookup roster) p.team1)
      (initProcessed roster) = true) :
    (perm.foldl (phase2Step (teamsLookup roster) wS wA wW)
        ⟨initProcessed roster, [], false⟩).agentCalls =
      (perm.filter fun p => wS p.team1 = none).map (·.team1) ∧
    (∀ p ∈ perm, ∀ e, wS p.team1 = some e →
      recOf (teamsLookup roster) wS wA wW p =
        [⟨p.team1, imageOf (teamsLookup roster) p.team1, placeholderMatches p,
          some ("Search failed: " ++ e)⟩]) ∧
    (ord1.foldl (phase1Step cS cA) ⟨[], [], []⟩).agentCalls =
      (ord1.filter fun t => cS t.name = none).map (·.name) ∧
    (ord1.foldl (phase1Step cS cA) ⟨[], [], []⟩).calRecords =
      ord1.map fun t => ⟨t.name, cS t.name⟩ := by
  refine ⟨?_, ?_, ?_, ?_⟩
  · rw [phase2_fold_closed _ wS wA wW perm _ rfl (initProcessed_nodup roster)
      hk]
    rfl
  · intro p _ e hw
    rw [recOf, pairRecords, pairRecord, hw]
    rfl
  · rw [phase1_fold_closed cS cA ord1 ⟨[], [], []⟩]
    rfl
  · rw [phase1_fold_closed cS cA ord1 ⟨[], [], []⟩]
    rfl

/-- Witness for C7 on the concrete one-pair batch with a failing watch
search: no agent call is made and the failed pair's record is the
search-failed placeholder. -/
theorem search_failure_skips_agent_witness :
    (ord2W.foldl (phase2Step (teamsLookup rosterW)
        (fun _ => some "boom") wAW wWokW)
        ⟨initProcessed rosterW, [], false⟩).agentCalls = [] ∧
    recOf (teamsLookup rosterW) (fun _ => some "boom") wAW wWokW
        ⟨"Flamengo", Json.str "Vasco",
          some (Json.str "2024-05-01T16:00:00-03:00")⟩ =
      [⟨"Flamengo", none,
        placeholderMatches ⟨"Flamengo", Json.str "Vasco",
          some (Json.str "2024-05-01T16:00:00-03:00")⟩,
        some ("Search failed: " ++ "boom")⟩] := by
  have hord : ord2W = [⟨"Flamengo", Json.str "Vasco",
      some (Json.str "2024-05-01T16:00:00-03:00")⟩] := rfl
  have hk : ∀ p ∈ ord2W, alHasKey (serieOf (teamsLookup rosterW) p.team1)
      (initProcessed rosterW) = true := by
    intro p hp
    rw [hord] at hp
    rcases List.mem_singleton.mp hp with rfl
    rfl
  have hmem : (⟨"Flamengo", Json.str "Vasco",
      some (Json.str "2024-05-01T16:00:00-03:00")⟩ : Pair) ∈ ord2W := by
    rw [hord]
    exact List.mem_singleton.mpr rfl
  have h := search_failure_skips_agent rosterW cSW (fun _ => some "boom")
    cAW wAW wWokW ord1W ord2W hk
  constructor
  · rw [h.1]
    rfl
  · exact h.2.1 _ hmem "boom" rfl

/-- Counterexample for C8 as stated: with the roster file missing (and
the credential present), the run does not crash or exit — it completes
normally with no artifact and no network call, so a missing roster file
is not a hard stop. -/
theorem missing_roster_not_hard_stop :
    fetch_and_process_football_matches .missing true cSW wSW cAW wAW wWokW
        ord1W ord2W = ⟨.noArtifact, [], []⟩ ∧
    RunResult.noArtifact ≠ RunResult.aborted :=
  ⟨rfl, fun h => RunResult.noConfusion h⟩

/-- C8 (amended).  A missing extraction-service credential
(`OPENAI_API_KEY`) is the only configuration error that hard-stops the
run, and it does so before any per-item network call; a missing or
unreadable roster file ends the run normally with no artifact and no
per-item network processing; with the credential present the run never
aborts, and under the completion-order hypotheses it never crashes: it
either stops without an artifact or persists one. -/
theorem config_error_termination (roster : List SeriesEntry)
    (cS wS : String → Option String) (cA wA : String → AgentOutcome)
    (wW : String → Option String)
    (ord1 : List TeamCtx) (ord2 : List Pair) (hasOpenAI : Bool)
    (hord1 : ord1.Perm (teamsWithSeries roster))
    (hord2 : ord2.Perm (teamPairs (nmFold cS cA ord1 []))) :
    (fetch_and_process_football_matches .missing hasOpenAI cS wS cA wA wW
      ord1 ord2 = ⟨.noArtifact, [], []⟩) ∧
    (fetch_and_process_football_matches .badJson hasOpenAI cS wS cA wA wW
      ord1 ord2 = ⟨.noArtifact, [], []⟩) ∧
    (¬ teamsWithSeries roster = [] →
      fetch_and_process_football_matches (.ok roster) false cS wS cA wA wW
        ord1 ord2 = ⟨.aborted, [], []⟩) ∧
    ((fetch_and_process_football_matches (.ok roster) true cS wS cA wA wW
        ord1 ord2).result = .noArtifact ∨
      ∃ g, (fetch_and_process_football_matches (.ok roster) true cS wS cA wA
        wW ord1 ord2).result = .artifact g) := by
  refine ⟨rfl, rfl, ?_, ?_⟩
  · intro hteams
    rw [fetch_and_process_football_matches, find_next_matches,
      if_neg hteams, if_pos (fun h : false = true => Bool.noConfusion h)]
  · by_cases hnm : (nmFold cS cA ord1 []).isEmpty = true
    · exact Or.inl (fetch_noArtifact_of_empty_nm roster cS wS cA wA wW
        ord1 ord2 hnm)
    · refine Or.inr ⟨phase2Artifact roster wS wA wW ord2, ?_⟩
      rw [fetch_artifact_closed roster cS wS cA wA wW ord1 ord2 hord1 hord2
        hnm]

/-- Witness for C8 (amended) on concrete runs: the credential-missing run
aborts with no searches; the normal run persists an artifact. -/
theorem config_error_termination_witness :
    fetch_and_process_football_matches (.ok rosterW) false cSW wSW cAW wAW
        wWokW ord1W ord2W = ⟨.aborted, [], []⟩ ∧
    ((fetch_and_process_football_matches (.ok rosterW) true cSW wSW cAW wAW
        wWokW ord1W ord2W).result = .noArtifact ∨
      ∃ g, (fetch_and_process_football_matches (.ok rosterW) true cSW wSW
        cAW wAW wWokW ord1W ord2W).result = .artifact g) := by
  have h := config_error_termination rosterW cSW wSW cAW wAW wWokW ord1W
    ord2W true (List.Perm.refl _) (List.Perm.refl _)
  exact ⟨h.2.2.1 (by decide), h.2.2.2⟩

/-- C10.  In phase 1, a team whose calendar search fails, whose agent
invocation raises or returns no output, or whose agent output yields no
recoverable JSON object containing the key `next_match`, is entirely
absent from the returned `next_matches` mapping — no error marker is
recorded for it — and in the persisted artifact it appears exactly as a
team that genuinely has no upcoming match does: with an empty `matches`
list and no error field.  The second part states the same record shape
for a team whose phase-1 entry is an explicit `None` (no upcoming match),
making the two cases indistinguishable in the artifact. -/
theorem phase1_failure_silent_absence (roster : List SeriesEntry)
    (cS wS : String → Option String) (cA wA : String → AgentOutcome)
    (wW : String → Option String)
    (ord1 : List TeamCtx) (ord2 : List Pair)
    (hord1 : ord1.Perm (teamsWithSeries roster))
    (hord2 : ord2.Perm (teamPairs (nmFold cS cA ord1 [])))
    (hnodup : (ord1.map (·.name)).Nodup)
    (g : GroupedOutput)
    (hg : (fetch_and_process_football_matches (.ok roster) true cS wS cA wA
      wW ord1 ord2).result = .artifact g) :
    (∀ t ∈ ord1,
      ((∃ e, cS t.name = some e) ∨
        (∃ m, cA t.name = .raise m) ∨
        cA t.name = .output "" ∨
        (∃ txt, cA t.name = .output txt ∧ ¬ txt = "" ∧
          noNextMatchKey txt)) →
      alget t.name (nmFold cS cA ord1 []) = none ∧
      recordsFor g t.name =
        [⟨t.name, imageOf (teamsLookup roster) t.name, [], none⟩]) ∧
    (∀ n, alget n (nmFold cS cA ord1 []) = some none →
      n ∈ rosterNames roster →
      recordsFor g n = [⟨n, imageOf (teamsLookup roster) n, [], none⟩]) := by
  have hnm : ¬ (nmFold cS cA ord1 []).isEmpty = true := by
    intro hc
    rw [fetch_noArtifact_of_empty_nm roster cS wS cA wA wW ord1 ord2 hc] at hg
    exact RunResult.noConfusion hg
  have hge : g = phase2Artifact roster wS wA wW ord2 := by
    rw [fetch_artifact_closed roster cS wS cA wA wW ord1 ord2 hord1 hord2 hnm]
      at hg
    exact (RunResult.artifact.injEq _ _ ▸ hg).symm
  subst hge
  have hnmnodup : ((nmFold cS cA ord1 []).map Prod.fst).Nodup :=
    nmFold_nodup cS cA ord1 [] List.nodup_nil
  have record_of_absent : ∀ n : String, n ∈ rosterNames roster →
      (alget n (nmFold cS cA ord1 []) = none ∨
        alget n (nmFold cS cA ord1 []) = some none) →
      recordsFor (phase2Artifact roster wS wA wW ord2) n =
        [⟨n, imageOf (teamsLookup roster) n, [], none⟩] := by
    intro n hn hcase
    have hnp : ¬ n ∈ (teamPairs (nmFold cS cA ord1 [])).map Pair.team1 :=
      not_mem_teamPairs_of_alget hnmnodup hcase
    have hnp2 : ¬ n ∈ ord2.map Pair.team1 := fun hc =>
      hnp ((hord2.map Pair.team1).subset hc)
    rcases alget_isSome_of_hasKey
      ((teamsLookup_hasKey roster n).mpr hn) with ⟨d, hd⟩
    have himg : imageOf (teamsLookup roster) n = d.image := by
      rw [imageOf, hd]
    rw [himg]
    exact recordsFor_artifact_absent roster wS wA wW ord2 n d hnp2 hd
  constructor
  · intro t ht hfail
    have hent : entryOf cS cA t = none := by
      rcases hfail with ⟨e, he⟩ | ⟨m, hm⟩ | hraw | ⟨txt, htxt, hne, hinv⟩
      · rw [entryOf, he]
      · rw [entryOf]
        cases hcs : cS t.name with
        | some e => rfl
        | none => rw [hm]; rfl
      · rw [entryOf]
        cases hcs : cS t.name with
        | some e => rfl
        | none => rw [hraw]; rfl
      · rw [entryOf]
        cases hcs : cS t.name with
        | some e => rfl
        | none =>
            rw [htxt]
            simp only [calEntry]
            rw [if_neg hne]
            cases hext : extract_json_from_response txt with
            | none => rfl
            | some p =>
                dsimp only
                rw [if_neg (hinv p hext)]
    have habs : alget t.name (nmFold cS cA ord1 []) = none := by
      refine nmFold_alget_none cS cA ord1 [] t.name (by simp) ?_
      intro t' ht' hname
      have : t' = t :=
        List.inj_on_of_nodup_map hnodup ht' ht hname
      rw [this]
      exact hent
    have hnmem : t.name ∈ rosterNames roster :=
      (hord1.map (·.name)).subset (List.mem_map.mpr ⟨t, ht, rfl⟩)
    exact ⟨habs, record_of_absent t.name hnmem (Or.inl habs)⟩
  · intro n halget hn
    exact record_of_absent n hn (Or.inr halget)

/-- Witness for C10 on the two-team roster: `Flamengo`'s calendar search
fails while `Santos` resolves a pair; the artifact is persisted,
`Flamengo` is absent from `next_matches`, and its record equals the
no-upcoming-match shape. -/
theorem phase1_failure_silent_absence_witness :
    (fetch_and_process_football_matches (.ok roster2W) true cS2W wSW cAW wAW
        wWokW ord12W ord22W).result =
      .artifact (phase2Artifact roster2W wSW wAW wWokW ord22W) ∧
    alget "Flamengo" (nmFold cS2W cAW ord12W []) = none ∧
    recordsFor (phase2Artifact roster2W wSW wAW wWokW ord22W) "Flamengo" =
      [⟨"Flamengo", none, [], none⟩] := by
  have h := phase1_failure_silent_absence roster2W cS2W wSW cAW wAW wWokW
    ord12W ord22W (List.Perm.refl _) (List.Perm.refl _) (by decide) _ rfl
  have hfl := h.1 ⟨"Flamengo", none, "A"⟩ (by decide)
    (Or.inl ⟨"net down", rfl⟩)
  exact ⟨rfl, hfl.1, hfl.2⟩

end QualCanal
